import Mathlib

/-!
# index_ptr: offsets resolved against a bound header

A shallow embedding of `include/nodecode/index_ptr.hpp`.

* `bound_header Header` is the pair of statics of the C++ class template
  `bound_header<Header>`: the current header pointer `s_current` (null is
  `none`) and the vector `s_headers` of saved pointers.
* `range_type T` is the container selected by the member pointer
  `ObjectsPtr`: its elements together with the address of the first one,
  counted in elements.  An `iterator T` is an address inside (or outside) such
  a container; raw `value_type*` pointers are modelled by the same type.
* `index_ptr` holds the integer `m_index`, `index_span` holds an `index_ptr`
  and `m_size`.  Values of the index type are natural numbers; every place
  where the source converts to `index_type` reduces modulo `2 ^ w`, where `w`
  is the bit width of `IndexType` (32 for the default `uint32_t`).  The
  built-in `-` on an index type narrower than `int` is applied after
  integral promotion and yields a signed `int`.
* Operations that can throw or that C++ leaves undefined return
  `Except Error _`.
-/

set_option maxRecDepth 8192

namespace nodecode

/-- Failure of an embedded operation.  `NotBound` is the
`std::runtime_error("No header bound")` thrown by `bound_header::get`;
`Undefined` marks what C++ leaves undefined: reading an element outside the
storage of the range, or `back()` / `pop_back()` on an empty vector. -/
inductive Error where
  | NotBound
  | Undefined
  deriving DecidableEq, Repr

/-- Conversion `static_cast<index_type>(z)` of a signed value to the `w`-bit
unsigned index type (also the result of unsigned arithmetic in that type):
reduction modulo `2 ^ w`. -/
def to_index_type (w : Nat) (z : Int) : Nat := (z % 2 ^ w).toNat

/-- Bit width of `int`.  An unsigned type of fewer bits is promoted to `int`
before the built-in binary operators are applied (integral promotion). -/
def int_width : Nat := 32

/-- Bit width of `std::size_t`, the size type of `std::span`. -/
def size_width : Nat := 64

/-! ## bound_header -/

/-- Thread-local statics of `bound_header<Header>`: `s_current` (a nullable
`Header*`) and the vector `s_headers` returned by `stack()`, whose back is the
last element of the list. -/
structure bound_header (Header : Type) where
  s_current : Option Header
  s_headers : List (Option Header)

namespace bound_header

variable {Header : Type}

/-- State at thread start: `s_current = nullptr`, empty `s_headers`. -/
def initial : bound_header Header := ⟨none, []⟩

/-- Constructor `bound_header(Header& header)`:
`stack().push_back(s_current); s_current = &header;`. -/
def ctor (s : bound_header Header) (header : Header) : bound_header Header :=
  ⟨some header, s.s_headers ++ [s.s_current]⟩

/-- Destructor `~bound_header()`:
`s_current = stack().back(); stack().pop_back();`.  Both calls are undefined
on an empty vector. -/
def dtor (s : bound_header Header) : Except Error (bound_header Header) :=
  match s.s_headers.getLast? with
  | none => .error .Undefined
  | some top => .ok ⟨top, s.s_headers.dropLast⟩

/-- Static `get()`: throws when `s_current` is null, else returns it. -/
def get (s : bound_header Header) : Except Error Header :=
  match s.s_current with
  | none => .error .NotBound
  | some header => .ok header

/-- Nested scopes opening: the constructor run for each header of the list,
first to last. -/
def ctor_all (s : bound_header Header) : List Header → bound_header Header
  | [] => s
  | header :: rest => ctor_all (s.ctor header) rest

/-- Scopes closing: the destructor run `k` times. -/
def dtor_n : Nat → bound_header Header → Except Error (bound_header Header)
  | 0, s => .ok s
  | k + 1, s => do
    let s1 ← s.dtor
    dtor_n k s1

end bound_header

/-! ## Ranges and iterators -/

/-- Container addressed by `header.*ObjectsPtr`: the address `data` of its
first element (in units of one element) and its elements. -/
structure range_type (T : Type) where
  data : Int
  elems : List T

/-- Random-access iterator (or raw element pointer): the container it points
into and an element address. -/
structure iterator (T : Type) where
  range : range_type T
  addr : Int

namespace range_type

variable {T : Type}

/-- Function `std::ranges::begin(r)` (and `std::ranges::data(r)`). -/
def begin (r : range_type T) : iterator T := ⟨r, r.data⟩

end range_type

namespace iterator

variable {T : Type}

/-- Iterator arithmetic `it + n`, with `n` converted to the signed
difference type (no reduction modulo the index width). -/
def add (it : iterator T) (n : Int) : iterator T := ⟨it.range, it.addr + n⟩

/-- Iterator difference `a - b`, a signed element count. -/
def sub (a b : iterator T) : Int := a.addr - b.addr

/-- Dereference `*it`: the element at offset `addr - data` of the container;
undefined outside `[0, length)`. -/
def deref (it : iterator T) : Except Error T :=
  let off := it.addr - it.range.data
  if off < 0 then .error .Undefined
  else
    match it.range.elems[off.toNat]? with
    | some v => .ok v
    | none => .error .Undefined

end iterator

/-! ## index_ptr -/

/-- Class `index_ptr<ObjectsPtr, IndexType, ConstHeader>`: the single member
`index_type m_index = 0`. -/
structure index_ptr where
  m_index : Nat
  deriving DecidableEq, Repr

namespace index_ptr

variable {Header T : Type}

/-- Method `bind(header)`: `std::ranges::begin(header.*ObjectsPtr) + m_index`. -/
def bind (ObjectsPtr : Header → range_type T) (p : index_ptr) (header : Header) :
    iterator T :=
  (ObjectsPtr header).begin.add p.m_index

/-- Method `get()`: `bind(*bound_header<header_type>::get())`. -/
def get (ObjectsPtr : Header → range_type T) (s : bound_header Header) (p : index_ptr) :
    Except Error (iterator T) := do
  let header ← bound_header.get s
  pure (bind ObjectsPtr p header)

/-- Subscript `operator[](pos)`: `get()[pos]`, read as a value. -/
def op_index (ObjectsPtr : Header → range_type T) (s : bound_header Header)
    (p : index_ptr) (pos : Nat) : Except Error T := do
  let it ← get ObjectsPtr s p
  (it.add pos).deref

/-- Dereference `operator*()`: `*get()`, read as a value. -/
def op_deref (ObjectsPtr : Header → range_type T) (s : bound_header Header)
    (p : index_ptr) : Except Error T := do
  let it ← get ObjectsPtr s p
  it.deref

/-- Constructor `index_ptr(const index_type& index)`. -/
def construct (index : Nat) : index_ptr := ⟨index⟩

/-- Defaulted constructor `index_ptr() = default`, with `m_index = 0`. -/
def default : index_ptr := ⟨0⟩

/-- Conversion `operator index_type&()` / `operator const index_type&()`. -/
def to_index (p : index_ptr) : Nat := p.m_index

/-- Assignment `ptr = k` of a value of the index type. -/
def assign (_p : index_ptr) (k : Nat) : index_ptr := ⟨k⟩

/-- Compound assignment `ptr += k`, the built-in `+=` of the `w`-bit unsigned
index type applied through `operator index_type&()`. -/
def add_assign (w : Nat) (p : index_ptr) (k : Nat) : index_ptr :=
  ⟨to_index_type w ((p.to_index : Int) + k)⟩

/-- Difference `a - b` of two pointers, each converted by
`operator const index_type&()`, then the built-in `-`.  An index type
narrower than `int` is promoted to `int` and the result is the signed
difference; otherwise the subtraction is that of the `w`-bit unsigned type. -/
def difference (w : Nat) (a b : index_ptr) : Int :=
  if w < int_width then (a.to_index : Int) - b.to_index
  else (to_index_type w ((a.to_index : Int) - b.to_index) : Int)

/-- Comparison `a == b`, the built-in `==` on the converted indices. -/
def eq (a b : index_ptr) : Bool := a.to_index == b.to_index

end index_ptr

/-! ## Reading a range of elements -/

namespace iterator

variable {T : Type}

/-- Reads `n` successive elements: `n` rounds of `use(*it); ++it;`. -/
def read_n : Nat → iterator T → Except Error (List T)
  | 0, _ => .ok []
  | n + 1, it => do
    let v ← it.deref
    let rest ← read_n n (it.add 1)
    pure (v :: rest)

/-- The loop `for (it = first; it != last; ++it) use(*it);` run by
`std::accumulate(first, last, ...)`, `std::string(first, last)` and range-for.
With `last` before `first` the loop leaves the storage, which is undefined. -/
def read_range (first last : iterator T) : Except Error (List T) :=
  if last.addr < first.addr then .error .Undefined
  else read_n (last.addr - first.addr).toNat first

end iterator

/-- View `std::span<value_type>`: a pointer to its first element and a
size. -/
structure std_span (T : Type) where
  data : iterator T
  size : Nat

/-- Elements of a `std::span`, read from `data` to `data + size`. -/
def std_span.elements {T : Type} (v : std_span T) : Except Error (List T) :=
  v.data.read_n v.size

/-! ## index_span -/

/-- Class `index_span<ObjectsPtr, IndexType, ConstHeader>`: the members
`pointer_type m_index` and `index_type m_size = 0`. -/
structure index_span where
  m_index : index_ptr
  m_size : Nat
  deriving DecidableEq, Repr

namespace index_span

variable {Header T : Type}

/-- Defaulted constructor `index_span() = default`. -/
def default : index_span := ⟨index_ptr.default, 0⟩

/-- Constructor `index_span(const index_type& index, const index_type& size)`. -/
def construct (index size : Nat) : index_span := ⟨index_ptr.construct index, size⟩

/-- Accessor `index()`: `m_index` converted to `const index_type&`. -/
def index (sp : index_span) : Nat := sp.m_index.to_index

/-- Accessor `size()`. -/
def size (sp : index_span) : Nat := sp.m_size

/-- Static `from_pointer(pointer, size, header)`:
`{static_cast<index_type>(pointer - base), size}` with
`base = std::ranges::data(header.*ObjectsPtr)`. -/
def from_pointer (w : Nat) (ObjectsPtr : Header → range_type T) (header : Header)
    (pointer : iterator T) (size : Nat) : index_span :=
  let base := (ObjectsPtr header).begin
  construct (to_index_type w (pointer.sub base)) size

/-- Static `from_pointer(begin, end, header)`:
`from_pointer(begin, static_cast<index_type>(std::distance(begin, end)), header)`. -/
def from_pointer_range (w : Nat) (ObjectsPtr : Header → range_type T) (header : Header)
    (first last : iterator T) : index_span :=
  from_pointer w ObjectsPtr header first (to_index_type w (last.sub first))

/-- Static `from_iterator(begin, size, header)`:
`{static_cast<index_type>(begin - base), size}` with
`base = std::ranges::begin(header.*ObjectsPtr)`. -/
def from_iterator (w : Nat) (ObjectsPtr : Header → range_type T) (header : Header)
    (first : iterator T) (size : Nat) : index_span :=
  let base := (ObjectsPtr header).begin
  construct (to_index_type w (first.sub base)) size

/-- Static `from_iterator(begin, end, header)`:
`from_iterator(begin, static_cast<index_type>(std::distance(begin, end)), header)`. -/
def from_iterator_range (w : Nat) (ObjectsPtr : Header → range_type T) (header : Header)
    (first last : iterator T) : index_span :=
  from_iterator w ObjectsPtr header first (to_index_type w (last.sub first))

/-- Static `from_range(range, header)`:
`from_pointer(std::ranges::data(range),
static_cast<index_type>(std::ranges::size(range)), header)`. -/
def from_range (w : Nat) (ObjectsPtr : Header → range_type T) (header : Header)
    (range : std_span T) : index_span :=
  from_pointer w ObjectsPtr header range.data (to_index_type w range.size)

/-- Evaluation of the default argument
`header_type& header = *bound_header<header_type>::get()` of the static
constructors, followed by the call `f header`. -/
def with_bound_header (s : bound_header Header) (f : Header → index_span) :
    Except Error index_span := do
  let header ← bound_header.get s
  pure (f header)

/-- Method `data()`: `&*m_index.get()`, the address of the first element. -/
def data (ObjectsPtr : Header → range_type T) (s : bound_header Header) (sp : index_span) :
    Except Error (iterator T) :=
  sp.m_index.get ObjectsPtr s

/-- Method `begin()`: `m_index.get()`. -/
def begin (ObjectsPtr : Header → range_type T) (s : bound_header Header) (sp : index_span) :
    Except Error (iterator T) :=
  sp.m_index.get ObjectsPtr s

/-- Method `end()`: `m_index.get() + size()`. -/
def end_ (ObjectsPtr : Header → range_type T) (s : bound_header Header) (sp : index_span) :
    Except Error (iterator T) := do
  let it ← sp.m_index.get ObjectsPtr s
  pure (it.add sp.size)

/-- Subscript `operator[](pos)`: `begin()[pos]`, read as a value. -/
def op_index (ObjectsPtr : Header → range_type T) (s : bound_header Header)
    (sp : index_span) (pos : Nat) : Except Error T := do
  let it ← begin ObjectsPtr s sp
  (it.add pos).deref

/-- Method `span()`: `{m_index.get(), m_size}`. -/
def span (ObjectsPtr : Header → range_type T) (s : bound_header Header) (sp : index_span) :
    Except Error (std_span T) := do
  let it ← sp.m_index.get ObjectsPtr s
  pure ⟨it, sp.m_size⟩

/-- Expression `m_size - offset` of `subspan`, converted to the size type of
`std::span`.  An index type narrower than `int` is promoted to `int`, and the
signed difference is converted to `std::size_t`; otherwise the subtraction is
that of the `w`-bit unsigned index type (no wider than `std::size_t`). -/
def sub_size (w : Nat) (size offset : Nat) : Nat :=
  if w < int_width then to_index_type size_width ((size : Int) - offset)
  else to_index_type w ((size : Int) - offset)

/-- Method `subspan(offset)`: `{m_index.get() + offset, m_size - offset}`. -/
def subspan (w : Nat) (ObjectsPtr : Header → range_type T) (s : bound_header Header)
    (sp : index_span) (offset : Nat) : Except Error (std_span T) := do
  let it ← sp.m_index.get ObjectsPtr s
  pure ⟨it.add offset, sub_size w sp.m_size offset⟩

/-- Iteration over the span as a range, from `begin()` to `end()`. -/
def iterate (ObjectsPtr : Header → range_type T) (s : bound_header Header)
    (sp : index_span) : Except Error (List T) := do
  let first ← begin ObjectsPtr s sp
  let last ← end_ ObjectsPtr s sp
  first.read_range last

end index_span

/-! ## Span comparison -/

namespace iterator

variable {T : Type}

/-- Element-wise comparison loop of `std::ranges::equal`: reads from `it`
and compares with the elements of the other range, stopping at the first
difference. -/
def equal_from [DecidableEq T] (it : iterator T) : List T → Except Error Bool
  | [] => .ok true
  | x :: rest => do
    let v ← it.deref
    if v = x then equal_from (it.add 1) rest else pure false

end iterator

namespace index_span

variable {Header T : Type}

/-- Comparison `operator==(const index_span& other)`:
`m_index == other.m_index && m_size == other.m_size`.  The member is not
declared const, so it is not viable on a const span. -/
def eq (a b : index_span) : Bool := a.m_index.eq b.m_index && a.m_size == b.m_size

/-- Comparison `operator==(Range&& other)`: `std::ranges::equal(*this, other)`,
with `other` given by its elements: false when the distances differ, else
the element-wise comparison from `begin()`. -/
def eq_range [DecidableEq T] (ObjectsPtr : Header → range_type T) (s : bound_header Header)
    (sp : index_span) (other : List T) : Except Error Bool := do
  let first ← begin ObjectsPtr s sp
  let last ← end_ ObjectsPtr s sp
  if last.sub first ≠ (other.length : Int) then pure false
  else first.equal_from other

end index_span

/-- Element-wise comparison loop of `std::ranges::equal` over two iterator
ranges of `n` elements, stopping at the first difference. -/
def iterator.equal_n {T : Type} [DecidableEq T] :
    Nat → iterator T → iterator T → Except Error Bool
  | 0, _, _ => .ok true
  | n + 1, it1, it2 => do
    let v1 ← it1.deref
    let v2 ← it2.deref
    if v1 = v2 then equal_n n (it1.add 1) (it2.add 1) else pure false

/-- Comparison `a == b` of two const spans.  The non-const member
`operator==(const index_span&)` is not viable on a const object, so the
call resolves to the const member template `operator==(Range&& other)` with
`Range = const index_span&`: `std::ranges::equal(*this, other)`, both spans
being read from their `begin()` to their `end()`. -/
def index_span.eq_const {Header T : Type} [DecidableEq T] (ObjectsPtr : Header → range_type T)
    (s : bound_header Header) (a b : index_span) : Except Error Bool := do
  let first1 ← a.begin ObjectsPtr s
  let last1 ← a.end_ ObjectsPtr s
  let first2 ← b.begin ObjectsPtr s
  let last2 ← b.end_ ObjectsPtr s
  if last1.sub first1 ≠ last2.sub first2 then pure false
  else iterator.equal_n (last1.sub first1).toNat first1 first2

/-! ## Writing through a resolved pointer -/

/-- Assignment `*it = v` through an iterator: the container afterwards, with
the element at offset `addr - data` replaced; undefined outside
`[0, length)`. -/
def iterator.store {T : Type} (it : iterator T) (v : T) : Except Error (range_type T) :=
  let off := it.addr - it.range.data
  if off < 0 then .error .Undefined
  else if off.toNat < it.range.elems.length then
    .ok ⟨it.range.data, it.range.elems.set off.toNat v⟩
  else .error .Undefined

/-- Statement `*p.bind(header) = v;` on a header whose addressed field is
mutable: the header afterwards.  `put header r` is the header with the field
`header.*ObjectsPtr` holding `r`. -/
def index_ptr.bind_store {Header T : Type} (ObjectsPtr : Header → range_type T)
    (put : Header → range_type T → Header) (p : index_ptr) (header : Header) (v : T) :
    Except Error Header := do
  let r ← (p.bind ObjectsPtr header).store v
  pure (put header r)

/-- Statement `*ptr.bind(header) = v;` with `ptr` a variable of its own,
outside the header: the header and the variable afterwards.  `bind` is a
const method and the store goes to the field, so the variable is not
written. -/
def index_ptr.bind_store_var {Header T : Type} (ObjectsPtr : Header → range_type T)
    (put : Header → range_type T → Header) (ptr : index_ptr) (header : Header) (v : T) :
    Except Error (Header × index_ptr) := do
  let header2 ← ptr.bind_store ObjectsPtr put header v
  pure (header2, ptr)

/-- Statement `*elem.next.bind(header) = v;` where `elem` is a reference to
element `j` of the addressed field and `next` is its pointer member: the
header afterwards.  The pointer used is the one stored in the header. -/
def index_ptr.bind_store_member {Header T : Type} (ObjectsPtr : Header → range_type T)
    (put : Header → range_type T → Header) (next : T → index_ptr) (j : Nat)
    (header : Header) (v : T) : Except Error Header :=
  match (ObjectsPtr header).elems[j]? with
  | none => .error .Undefined
  | some elem => (next elem).bind_store ObjectsPtr put header v

/-- Pointer stored in element `j` of the addressed field of `header`. -/
def stored_pointer {Header T : Type} (ObjectsPtr : Header → range_type T)
    (next : T → index_ptr) (j : Nat) (header : Header) : Option index_ptr :=
  ((ObjectsPtr header).elems[j]?).map next

/-! ## Sequences of registrations and releases -/

/-- One step of a thread on the registry: a `bound_header` object is
constructed on `header`, or one is destroyed. -/
inductive registry_step (Header : Type) where
  | register (header : Header)
  | release

/-- Runs the steps in order from state `s`. -/
def run_steps {Header : Type} (s : bound_header Header) :
    List (registry_step Header) → Except Error (bound_header Header)
  | [] => .ok s
  | .register header :: rest => run_steps (s.ctor header) rest
  | .release :: rest => do
    let s1 ← s.dtor
    run_steps s1 rest

/-- Number of live `bound_header` objects after the steps, starting with
`live` of them; `none` when some step destroys an object while none is
live. -/
def live_count {Header : Type} (live : Nat) : List (registry_step Header) → Option Nat
  | [] => some live
  | .register _ :: rest => live_count (live + 1) rest
  | .release :: rest =>
    match live with
    | 0 => none
    | n + 1 => live_count n rest

/-! ## Releasing through a given object -/

/-- Object of class `bound_header<Header>`.  The class has no non-static data
member, so an object stores nothing; `id` only tells the objects apart (the
position of the registration that created it). -/
structure bound_header_object where
  id : Nat
  deriving DecidableEq, Repr

/-- Destructor `~bound_header()` run on the object `obj`:
`s_current = stack().back(); stack().pop_back();`.  The body reads the
statics only. -/
def bound_header.dtor_object {Header : Type} (s : bound_header Header)
    (_obj : bound_header_object) : Except Error (bound_header Header) :=
  match s.s_headers.getLast? with
  | none => .error .Undefined
  | some top => .ok ⟨top, s.s_headers.dropLast⟩

/-- Destructors run on the objects of the list, in the order of the list. -/
def bound_header.dtor_objects {Header : Type} (s : bound_header Header) :
    List bound_header_object → Except Error (bound_header Header)
  | [] => .ok s
  | obj :: rest => do
    let s1 ← s.dtor_object obj
    dtor_objects s1 rest

/-! ## The summation loops of the benchmark test -/

/-- Addition `sum + v` in a `w`-bit unsigned accumulator. -/
def uint_add (w : Nat) (sum v : Nat) : Nat := to_index_type w ((sum : Int) + v)

/-- Loop `for (auto& ptr : m_indexptrs) sum = f(sum, *ptr);`, which is also
`std::accumulate` over the pointers with a function reading `*ptr`. -/
def accumulate_deref {Header T A : Type} (ObjectsPtr : Header → range_type T)
    (s : bound_header Header) (f : A → T → A) : List index_ptr → A → Except Error A
  | [], sum => .ok sum
  | ptr :: rest, sum => do
    let v ← ptr.op_deref ObjectsPtr s
    accumulate_deref ObjectsPtr s f rest (f sum v)

/-- Loop `for (auto& ptr : m_indexptrs) sum = f(sum, *ptr.bind(header));`. -/
def accumulate_bind {Header T A : Type} (ObjectsPtr : Header → range_type T)
    (header : Header) (f : A → T → A) : List index_ptr → A → Except Error A
  | [], sum => .ok sum
  | ptr :: rest, sum => do
    let v ← (ptr.bind ObjectsPtr header).deref
    accumulate_bind ObjectsPtr header f rest (f sum v)

/-- Loop `for (auto& index : m_indices) sum = f(sum, header.m_data[index]);`,
the direct indexing of the field (undefined outside the field). -/
def accumulate_direct {Header T A : Type} (ObjectsPtr : Header → range_type T)
    (header : Header) (f : A → T → A) : List Nat → A → Except Error A
  | [], sum => .ok sum
  | index :: rest, sum =>
    match (ObjectsPtr header).elems[index]? with
    | none => .error .Undefined
    | some v => accumulate_direct ObjectsPtr header f rest (f sum v)

/-! ## Pointers stored inside elements -/

namespace iterator

variable {T A : Type}

/-- Member access `ptr->member` through an element pointer. -/
def member (it : iterator T) (f : T → A) : Except Error A := do
  let v ← it.deref
  pure (f v)

end iterator

namespace index_ptr

variable {Header T A : Type}

/-- Arrow `operator->()`: `get().operator->()`, a pointer to the element. -/
def op_arrow (ObjectsPtr : Header → range_type T) (s : bound_header Header)
    (p : index_ptr) : Except Error (iterator T) :=
  p.get ObjectsPtr s

/-- Expression `p->member`: `operator->()` followed by the member access. -/
def arrow_member (ObjectsPtr : Header → range_type T) (s : bound_header Header)
    (p : index_ptr) (f : T → A) : Except Error A := do
  let q ← p.op_arrow ObjectsPtr s
  q.member f

end index_ptr

/-- Loop `for (...) key = *key.next;` of the self-reference test, run `t`
times from `key`; `next` is the pointer member of the element. -/
def follow {Header T : Type} (ObjectsPtr : Header → range_type T) (next : T → index_ptr)
    (s : bound_header Header) : Nat → T → Except Error T
  | 0, key => .ok key
  | t + 1, key => do
    let key1 ← (next key).op_deref ObjectsPtr s
    follow ObjectsPtr next s t key1

/-- Loop `for (...) { read(key.next); key = *key.next; }` of the self-reference
test: the pointer values read in `t` rounds. -/
def follow_reads {Header T : Type} (ObjectsPtr : Header → range_type T)
    (next : T → index_ptr) (s : bound_header Header) : Nat → T → Except Error (List Nat)
  | 0, _ => .ok []
  | t + 1, key => do
    let key1 ← (next key).op_deref ObjectsPtr s
    let rest ← follow_reads ObjectsPtr next s t key1
    pure ((next key).to_index :: rest)

/-! ## Headers of the tests -/

/-- Test element `CircleOfFifths::Key`. -/
structure Key where
  next : index_ptr
  deriving DecidableEq, Repr

/-- Test header `CircleOfFifths`, with its field `keys`. -/
structure CircleOfFifths where
  keys : range_type Key

/-- Test value `keys_ = {{7}, {8}, {9}, {10}, {11}, {0}, {1}, ..., {6}}`. -/
def circle_of_fifths : CircleOfFifths :=
  ⟨⟨0, [⟨⟨7⟩⟩, ⟨⟨8⟩⟩, ⟨⟨9⟩⟩, ⟨⟨10⟩⟩, ⟨⟨11⟩⟩, ⟨⟨0⟩⟩, ⟨⟨1⟩⟩, ⟨⟨2⟩⟩, ⟨⟨3⟩⟩, ⟨⟨4⟩⟩, ⟨⟨5⟩⟩,
    ⟨⟨6⟩⟩]⟩⟩

/-- Store into the field `keys` of a `CircleOfFifths`. -/
def CircleOfFifths.put_keys (_header : CircleOfFifths) (r : range_type Key) : CircleOfFifths :=
  ⟨r⟩

/-- A `CircleOfFifths` with two keys whose pointers address their own
element: `keys_ = {{0}, {1}}`. -/
def self_keys : CircleOfFifths := ⟨⟨0, [⟨⟨0⟩⟩, ⟨⟨1⟩⟩]⟩⟩

/-- Test element `Foo` of the chain test: `data` and a pointer into `bars`. -/
structure Foo where
  data : String
  bar : index_ptr

/-- Test element `Bar` of the chain test: `data` and a pointer into `foos`. -/
structure Bar where
  data : String
  foo : index_ptr

/-- Test header of the chain test, with its fields `foos` and `bars`. -/
structure ChainHeader where
  foos : range_type Foo
  bars : range_type Bar

/-- Test value `foos{{"foo0", 0}, {"foo1", 1}}`, `bars{{"bar0", 1}, {"bar1", 0}}`. -/
def chain_header : ChainHeader :=
  ⟨⟨100, [⟨"foo0", ⟨0⟩⟩, ⟨"foo1", ⟨1⟩⟩]⟩, ⟨200, [⟨"bar0", ⟨1⟩⟩, ⟨"bar1", ⟨0⟩⟩]⟩⟩

/-- Test header `ArrayHeader` / `StringHeader`: one field `base`. -/
structure StringHeader where
  base : range_type Char

/-- Test value `base = "hello world"`, stored at element address 4096. -/
def hello_world : StringHeader :=
  ⟨⟨4096, ['h', 'e', 'l', 'l', 'o', ' ', 'w', 'o', 'r', 'l', 'd']⟩⟩

/-- Store into the field `base` of a `StringHeader`. -/
def StringHeader.put_base (_header : StringHeader) (r : range_type Char) : StringHeader :=
  ⟨r⟩

/-- Benchmark header `Header`, restricted to the field `m_data`. -/
structure DataHeader where
  m_data : range_type Nat

/-- A small `m_data`, stored at element address 64. -/
def small_data : DataHeader := ⟨⟨64, [10, 20, 30, 40]⟩⟩

/-- An `m_data` of 300 elements `0, 1, ..., 299`, longer than an 8-bit index
type can address. -/
def wide_data : DataHeader := ⟨⟨0, List.range 300⟩⟩

/-! ## Helper lemmas -/

theorem iterator.deref_begin_add {T : Type} (r : range_type T) (k : Nat)
    (h : k < r.elems.length) :
    (r.begin.add k).deref = .ok (r.elems[k]) := by
  simp [iterator.deref, iterator.add, range_type.begin, List.getElem?_eq_getElem h]

theorem iterator.deref_begin_add_eq {T : Type} (r : range_type T) (k : Nat) :
    (r.begin.add k).deref
      = match r.elems[k]? with
        | some v => .ok v
        | none => .error .Undefined := by
  simp [iterator.deref, iterator.add, range_type.begin]

theorem bound_header.get_ok_of_current {Header : Type} (s : bound_header Header) (c : Header)
    (h : s.s_current = some c) : bound_header.get s = .ok c := by
  simp [bound_header.get, h]

theorem iterator.add_add {T : Type} (it : iterator T) (a b : Int) :
    (it.add a).add b = it.add (a + b) := by
  simp [iterator.add, add_assoc]

theorem index_ptr.get_eq_bind_of_current {Header T : Type} (ObjectsPtr : Header → range_type T)
    (s : bound_header Header) (c : Header) (p : index_ptr) (h : s.s_current = some c) :
    index_ptr.get ObjectsPtr s p = .ok ((ObjectsPtr c).begin.add p.m_index) := by
  unfold index_ptr.get
  rw [bound_header.get_ok_of_current s c h]
  rfl

/-- Registry state after binding the headers `hs` (first to last) from the
initial state: the current header is the last one bound, and the saved vector
holds the null pointer followed by all but the last header. -/
def bound_header.registered {Header : Type} (hs : List Header) : bound_header Header :=
  ⟨hs.getLast?, (none :: hs.map some).dropLast⟩

theorem bound_header.initial_eq_registered {Header : Type} :
    (bound_header.initial : bound_header Header) = bound_header.registered [] := rfl

theorem bound_header.registered_concat {Header : Type} (l : List Header) (a : Header) :
    bound_header.registered (l ++ [a]) = ⟨some a, none :: l.map some⟩ := by
  unfold bound_header.registered
  congr 1
  · simp
  · rw [List.map_append, ← List.cons_append]
    exact List.dropLast_concat

theorem bound_header.ctor_registered {Header : Type} (hs : List Header) (h : Header) :
    (bound_header.registered hs).ctor h = bound_header.registered (hs ++ [h]) := by
  rw [bound_header.registered_concat]
  rcases List.eq_nil_or_concat hs with rfl | ⟨l, a, e⟩
  · rfl
  · rw [List.concat_eq_append] at e
    subst e
    rw [bound_header.registered_concat]
    simp [bound_header.ctor]

theorem bound_header.ctor_all_registered {Header : Type} (l hs : List Header) :
    (bound_header.registered hs).ctor_all l = bound_header.registered (hs ++ l) := by
  induction l generalizing hs with
  | nil => simp [bound_header.ctor_all]
  | cons a rest ih =>
    rw [bound_header.ctor_all, bound_header.ctor_registered, ih]
    simp

theorem bound_header.dtor_registered_concat {Header : Type} (hs : List Header) (h : Header) :
    (bound_header.registered (hs ++ [h])).dtor = .ok (bound_header.registered hs) := by
  rw [← bound_header.ctor_registered]
  simp [bound_header.ctor, bound_header.dtor, List.dropLast_concat]

theorem bound_header.dtor_n_registered {Header : Type} (k : Nat) (hs : List Header)
    (hk : k ≤ hs.length) :
    bound_header.dtor_n k (bound_header.registered hs)
      = .ok (bound_header.registered (hs.take (hs.length - k))) := by
  induction k generalizing hs with
  | zero => simp [bound_header.dtor_n]
  | succ k ih =>
    rcases List.eq_nil_or_concat hs with rfl | ⟨l, a, e⟩
    · simp at hk
    · rw [List.concat_eq_append] at e
      subst e
      have hl : k ≤ l.length := by simpa using hk
      rw [bound_header.dtor_n, bound_header.dtor_registered_concat]
      show bound_header.dtor_n k (bound_header.registered l) = _
      rw [ih l hl]
      have e : (l ++ [a]).length - (k + 1) = l.length - k := by simp
      rw [e, List.take_append_of_le_length (by omega)]

theorem bound_header.get_registered {Header : Type} (hs : List Header) :
    (bound_header.registered hs).get
      = match hs.getLast? with
        | some h => .ok h
        | none => .error .NotBound := by
  unfold bound_header.get bound_header.registered
  cases hs.getLast? <;> rfl

theorem to_index_type_of_lt (w n : Nat) (h : n < 2 ^ w) : to_index_type w (n : Int) = n := by
  unfold to_index_type
  have h2 : ((n : Int)) < 2 ^ w := by exact_mod_cast h
  rw [Int.emod_eq_of_lt (Int.ofNat_nonneg n) h2]
  exact Int.toNat_ofNat n

theorem iterator.sub_begin_add {T : Type} (r : range_type T) (k : Int) :
    (r.begin.add k).sub r.begin = k := by
  simp [iterator.sub, iterator.add, range_type.begin]

theorem iterator.sub_add_add {T : Type} (it : iterator T) (a b : Int) :
    (it.add b).sub (it.add a) = b - a := by
  simp [iterator.sub, iterator.add]

theorem iterator.read_n_begin_add {T : Type} (r : range_type T) (n i : Nat)
    (h : i + n ≤ r.elems.length) :
    (r.begin.add i).read_n n = .ok ((r.elems.drop i).take n) := by
  induction n generalizing i with
  | zero => simp [iterator.read_n]
  | succ n ih =>
    have hi : i < r.elems.length := by omega
    have hstep : (r.begin.add (i : Int)).add 1 = r.begin.add ((i + 1 : Nat) : Int) := by
      rw [iterator.add_add]
      push_cast
      rfl
    unfold iterator.read_n
    rw [iterator.deref_begin_add r i hi, hstep]
    show ((r.begin.add ((i + 1 : Nat) : Int)).read_n n >>= _) = _
    rw [ih (i + 1) (by omega), List.drop_eq_getElem_cons hi, List.take_succ_cons]
    rfl

theorem iterator.read_range_add {T : Type} (it : iterator T) (n : Nat) :
    it.read_range (it.add n) = it.read_n n := by
  simp [iterator.read_range, iterator.add]

theorem index_span.iterate_of_current {Header T : Type} (ObjectsPtr : Header → range_type T)
    (s : bound_header Header) (c : Header) (i n : Nat) (hcur : s.s_current = some c)
    (h : i + n ≤ (ObjectsPtr c).elems.length) :
    (index_span.construct i n).iterate ObjectsPtr s
      = .ok (((ObjectsPtr c).elems.drop i).take n) := by
  have hget := index_ptr.get_eq_bind_of_current ObjectsPtr s c (index_ptr.construct i) hcur
  unfold index_span.iterate index_span.begin index_span.end_ index_span.construct
  simp only [hget]
  show ((ObjectsPtr c).begin.add i).read_range (((ObjectsPtr c).begin.add i).add n) = _
  rw [iterator.read_range_add]
  exact iterator.read_n_begin_add (ObjectsPtr c) n i h

theorem list_eq_slice_iff {T : Type} (F r : List T) (i n : Nat) (h : i + n ≤ F.length) :
    r = (F.drop i).take n ↔
      r.length = n ∧ ∀ k (hk : k < n), r[k]? = some (F[i + k]) := by
  have hlen : ((F.drop i).take n).length = n := by
    simp
    omega
  have hget : ∀ k (hk : k < n), ((F.drop i).take n)[k]? = some (F[i + k]) := by
    intro k hk
    rw [List.getElem?_take_of_lt hk, List.getElem?_drop,
      List.getElem?_eq_getElem (by omega)]
  constructor
  · intro e
    subst e
    exact ⟨hlen, hget⟩
  · rintro ⟨hl, hk⟩
    apply List.ext_getElem?
    intro k
    by_cases hkn : k < n
    · rw [hk k hkn, hget k hkn]
    · rw [List.getElem?_eq_none (by omega), List.getElem?_eq_none (by omega)]

theorem iterator.equal_from_begin_add {T : Type} [DecidableEq T] (r : range_type T)
    (other : List T) (i : Nat) (h : i + other.length ≤ r.elems.length) :
    (r.begin.add i).equal_from other
      = .ok (decide (other = (r.elems.drop i).take other.length)) := by
  induction other generalizing i with
  | nil => simp [iterator.equal_from]
  | cons x rest ih =>
    have hlen : (x :: rest).length = rest.length + 1 := rfl
    rw [hlen] at h
    have hi : i < r.elems.length := by omega
    have hstep : (r.begin.add (i : Int)).add 1 = r.begin.add ((i + 1 : Nat) : Int) := by
      rw [iterator.add_add]
      push_cast
      rfl
    unfold iterator.equal_from
    rw [iterator.deref_begin_add r i hi, hstep]
    show (if r.elems[i] = x then (r.begin.add ((i + 1 : Nat) : Int)).equal_from rest
      else pure false) = _
    rw [ih (i + 1) (by omega), hlen, List.drop_eq_getElem_cons hi, List.take_succ_cons]
    by_cases hx : r.elems[i] = x
    · simp [hx]
    · have hx2 : ¬ x = r.elems[i] := fun e => hx e.symm
      simp [hx, hx2]
      rfl

theorem index_ptr.op_deref_of_current {Header T : Type} (ObjectsPtr : Header → range_type T)
    (s : bound_header Header) (c : Header) (p : index_ptr) (hcur : s.s_current = some c)
    (hi : p.m_index < (ObjectsPtr c).elems.length) :
    p.op_deref ObjectsPtr s = .ok ((ObjectsPtr c).elems[p.m_index]) := by
  unfold index_ptr.op_deref
  rw [index_ptr.get_eq_bind_of_current ObjectsPtr s c p hcur]
  exact iterator.deref_begin_add (ObjectsPtr c) p.m_index hi

theorem index_ptr.arrow_member_of_current {Header T A : Type}
    (ObjectsPtr : Header → range_type T) (s : bound_header Header) (c : Header)
    (p : index_ptr) (f : T → A) (hcur : s.s_current = some c)
    (hi : p.m_index < (ObjectsPtr c).elems.length) :
    p.arrow_member ObjectsPtr s f = .ok (f ((ObjectsPtr c).elems[p.m_index])) := by
  unfold index_ptr.arrow_member index_ptr.op_arrow
  rw [index_ptr.get_eq_bind_of_current ObjectsPtr s c p hcur]
  show (((ObjectsPtr c).begin.add p.m_index).member f) = _
  unfold iterator.member
  rw [iterator.deref_begin_add (ObjectsPtr c) p.m_index hi]
  rfl

theorem follow_of_current {Header T : Type} (ObjectsPtr : Header → range_type T)
    (next : T → index_ptr) (s : bound_header Header) (c : Header)
    (hcur : s.s_current = some c) (hlen : (ObjectsPtr c).elems.length = 12)
    (hnext : ∀ k (hk : k < 12),
      next ((ObjectsPtr c).elems[k]) = index_ptr.construct ((k + 7) % 12))
    (t start : Nat) (hs : start < 12) :
    follow ObjectsPtr next s t ((ObjectsPtr c).elems[start])
      = .ok ((ObjectsPtr c).elems[(start + 7 * t) % 12]) := by
  induction t generalizing start with
  | zero =>
    have e : (start + 7 * 0) % 12 = start := by omega
    simp only [follow, e]
  | succ t ih =>
    have hlt : (start + 7) % 12 < 12 := by omega
    have hd := index_ptr.op_deref_of_current ObjectsPtr s c
      (next ((ObjectsPtr c).elems[start])) hcur (by
        rw [hnext start hs]
        show (start + 7) % 12 < _
        omega)
    unfold follow
    rw [hd]
    show follow ObjectsPtr next s t _ = _
    have e1 : (next ((ObjectsPtr c).elems[start])).m_index = (start + 7) % 12 := by
      rw [hnext start hs]
      rfl
    have e2 : ((start + 7) % 12 + 7 * t) % 12 = (start + 7 * (t + 1)) % 12 := by omega
    simp only [e1]
    rw [ih ((start + 7) % 12) hlt]
    simp only [e2]

theorem live_count_append {Header : Type} (pre rest : List (registry_step Header))
    (live : Nat) :
    live_count live (pre ++ rest) = (live_count live pre).bind (fun b => live_count b rest) := by
  induction pre generalizing live with
  | nil => rfl
  | cons step pre ih =>
    cases step with
    | register header => exact ih (live + 1)
    | release =>
      cases live with
      | zero => rfl
      | succ n => exact ih n

theorem run_steps_registered {Header : Type} (steps : List (registry_step Header))
    (hs : List Header) (m : Nat) (hlive : live_count hs.length steps = some m) :
    ∃ hs2, run_steps (bound_header.registered hs) steps = .ok (bound_header.registered hs2) ∧
      hs2.length = m ∧ ∀ h ∈ hs2, h ∈ hs ∨ registry_step.register h ∈ steps := by
  induction steps generalizing hs with
  | nil =>
    refine ⟨hs, rfl, ?_, fun h hh => Or.inl hh⟩
    simpa [live_count] using hlive
  | cons step rest ih =>
    cases step with
    | register header =>
      have hl : live_count (hs ++ [header]).length rest = some m := by
        simpa [live_count] using hlive
      obtain ⟨hs2, h1, h2, h3⟩ := ih (hs ++ [header]) hl
      refine ⟨hs2, ?_, h2, ?_⟩
      · rw [run_steps, bound_header.ctor_registered]
        exact h1
      · intro h hh
        rcases h3 h hh with hin | hin
        · rcases List.mem_append.mp hin with hin | hin
          · exact Or.inl hin
          · rw [List.mem_singleton] at hin
            subst hin
            exact Or.inr (List.mem_cons_self _ _)
        · exact Or.inr (List.mem_cons_of_mem _ hin)
    | release =>
      rcases List.eq_nil_or_concat hs with e | ⟨l, a, e⟩
      · subst e
        simp [live_count] at hlive
      · rw [List.concat_eq_append] at e
        subst e
        have hl : live_count l.length rest = some m := by
          simpa [live_count] using hlive
        obtain ⟨hs2, h1, h2, h3⟩ := ih l hl
        refine ⟨hs2, ?_, h2, ?_⟩
        · rw [run_steps, bound_header.dtor_registered_concat]
          exact h1
        · intro h hh
          rcases h3 h hh with hin | hin
          · exact Or.inl (List.mem_append_left _ hin)
          · exact Or.inr (List.mem_cons_of_mem _ hin)

theorem bound_header.registered_headers_length {Header : Type} (hs : List Header) :
    (bound_header.registered hs).s_headers.length = hs.length := by
  simp [bound_header.registered]

theorem bound_header.dtor_objects_eq_dtor_n {Header : Type} (order : List bound_header_object)
    (s : bound_header Header) :
    s.dtor_objects order = bound_header.dtor_n order.length s := by
  induction order generalizing s with
  | nil => rfl
  | cons obj rest ih =>
    unfold bound_header.dtor_objects
    rw [List.length_cons, bound_header.dtor_n]
    show (s.dtor >>= fun s1 => bound_header.dtor_objects s1 rest)
      = (s.dtor >>= fun s1 => bound_header.dtor_n rest.length s1)
    congr 1
    funext s1
    exact ih s1

theorem index_span.sub_size_of_le (w n o : Nat) (hn : n < 2 ^ w) (ho : o ≤ n) :
    index_span.sub_size w n o = n - o := by
  unfold index_span.sub_size
  rw [← Int.ofNat_sub ho]
  split
  · rename_i hw
    have h1 : 2 ^ w < 2 ^ size_width :=
      Nat.pow_lt_pow_right (by decide) (by unfold int_width at hw; unfold size_width; omega)
    exact to_index_type_of_lt size_width (n - o) (by omega)
  · exact to_index_type_of_lt w (n - o) (by omega)

theorem index_span.sub_size_default (n o : Nat) :
    index_span.sub_size 32 n o = to_index_type 32 ((n : Int) - (o : Int)) := by
  unfold index_span.sub_size
  rw [if_neg (by decide)]

theorem to_index_type_sub_of_lt (n o : Nat) (hn : n < o) (ho : o < 2 ^ 32) :
    to_index_type 32 ((n : Int) - (o : Int)) = 2 ^ 32 - (o - n) := by
  unfold to_index_type
  have e : ((n : Int) - (o : Int)) % 2 ^ 32 = (n : Int) - (o : Int) + 2 ^ 32 := by
    rw [← Int.add_emod_self]
    exact Int.emod_eq_of_lt (by omega) (by omega)
  rw [e]
  omega

theorem index_span.eq_iff_index_size (a b : index_span) :
    (a.eq b = true ↔ a.index = b.index ∧ a.size = b.size) ∧
    (a.eq b = true ↔ a = b) := by
  have h1 : a.eq b = true ↔ a.index = b.index ∧ a.size = b.size := by
    simp [index_span.eq, index_ptr.eq, index_span.index, index_span.size]
  refine ⟨h1, h1.trans ?_⟩
  cases a with
  | mk ai an =>
    cases b with
    | mk bi bn =>
      cases ai
      cases bi
      simp [index_span.index, index_span.size, index_ptr.to_index]

/-! ## Claims -/

/-- C1: for a header `c` that is the currently bound one, with addressed
field `F`, an index_ptr with index `i` and a position `pos` with
`i + pos < length F`, `operator[](pos)` returns `F[i + pos]` (the sum is an
ordinary sum, not reduced modulo the index width); and when `i < length F`,
`operator*` returns `F[i]`. -/
theorem C1_index_reads_field {Header T : Type} (ObjectsPtr : Header → range_type T)
    (s : bound_header Header) (c : Header) (p : index_ptr) (pos : Nat)
    (hcur : s.s_current = some c)
    (h : p.m_index + pos < (ObjectsPtr c).elems.length) :
    index_ptr.op_index ObjectsPtr s p pos = .ok ((ObjectsPtr c).elems[p.m_index + pos]) ∧
    index_ptr.op_deref ObjectsPtr s p
      = .ok ((ObjectsPtr c).elems[p.m_index]) := by
  have hget := index_ptr.get_eq_bind_of_current ObjectsPtr s c p hcur
  constructor
  · have hd := iterator.deref_begin_add (ObjectsPtr c) (p.m_index + pos) h
    unfold index_ptr.op_index
    rw [hget]
    show ((((ObjectsPtr c).begin.add p.m_index).add pos).deref = _)
    rw [iterator.add_add]
    exact_mod_cast hd
  · have hd := iterator.deref_begin_add (ObjectsPtr c) p.m_index (by omega)
    unfold index_ptr.op_deref
    rw [hget]
    exact hd

theorem C1_index_reads_field_witness :
    index_ptr.op_index StringHeader.base (bound_header.initial.ctor hello_world) ⟨6⟩ 1
      = .ok 'o' ∧
    index_ptr.op_deref StringHeader.base (bound_header.initial.ctor hello_world) ⟨6⟩
      = .ok 'w' :=
  C1_index_reads_field StringHeader.base (bound_header.initial.ctor hello_world)
    hello_world ⟨6⟩ 1 rfl (by decide)

/-- C2: in a registry state where `bound_header::get()` returns `c`, the
implicit `get()` of every index_ptr returns the same iterator as the explicit
`bind(c)`; hence accumulating through `*ptr`, through `*ptr.bind(c)` and
through direct indexing of the field give the same result, which is a value
(not an error) when every index lies inside the field. -/
theorem C2_implicit_eq_explicit {Header T A : Type} (ObjectsPtr : Header → range_type T)
    (s : bound_header Header) (c : Header) (hget : bound_header.get s = .ok c) :
    (∀ p : index_ptr, p.get ObjectsPtr s = .ok (p.bind ObjectsPtr c)) ∧
    (∀ (f : A → T → A) (ptrs : List index_ptr) (sum : A),
      accumulate_deref ObjectsPtr s f ptrs sum = accumulate_bind ObjectsPtr c f ptrs sum ∧
      accumulate_bind ObjectsPtr c f ptrs sum
        = accumulate_direct ObjectsPtr c f (ptrs.map index_ptr.to_index) sum) ∧
    (∀ (f : A → T → A) (ptrs : List index_ptr) (sum : A),
      (∀ p ∈ ptrs, p.m_index < (ObjectsPtr c).elems.length) →
      ∃ total, accumulate_deref ObjectsPtr s f ptrs sum = .ok total) := by
  have hg : ∀ p : index_ptr, p.get ObjectsPtr s = .ok (p.bind ObjectsPtr c) := by
    intro p
    unfold index_ptr.get
    rw [hget]
    rfl
  have h1 : ∀ (f : A → T → A) (ptrs : List index_ptr) (sum : A),
      accumulate_deref ObjectsPtr s f ptrs sum = accumulate_bind ObjectsPtr c f ptrs sum := by
    intro f ptrs
    induction ptrs with
    | nil => intro sum; rfl
    | cons p rest ih =>
      intro sum
      unfold accumulate_deref accumulate_bind index_ptr.op_deref
      rw [hg p]
      show ((p.bind ObjectsPtr c).deref >>= _) = ((p.bind ObjectsPtr c).deref >>= _)
      congr 1
      funext v
      exact ih (f sum v)
  have h2 : ∀ (f : A → T → A) (ptrs : List index_ptr) (sum : A),
      accumulate_bind ObjectsPtr c f ptrs sum
        = accumulate_direct ObjectsPtr c f (ptrs.map index_ptr.to_index) sum := by
    intro f ptrs
    induction ptrs with
    | nil => intro sum; rfl
    | cons p rest ih =>
      intro sum
      simp only [List.map_cons, accumulate_bind, accumulate_direct, index_ptr.bind,
        index_ptr.to_index]
      rw [iterator.deref_begin_add_eq]
      cases hv : (ObjectsPtr c).elems[p.m_index]? with
      | none => rfl
      | some v => exact ih (f sum v)
  refine ⟨hg, fun f ptrs sum => ⟨h1 f ptrs sum, h2 f ptrs sum⟩, ?_⟩
  intro f ptrs
  induction ptrs with
  | nil => intro sum _; exact ⟨sum, rfl⟩
  | cons p rest ih =>
    intro sum hin
    have hp : p.m_index < (ObjectsPtr c).elems.length := hin p (List.mem_cons_self _ _)
    obtain ⟨total, ht⟩ := ih (f sum ((ObjectsPtr c).elems[p.m_index]))
      (fun q hq => hin q (List.mem_cons_of_mem _ hq))
    refine ⟨total, ?_⟩
    unfold accumulate_deref index_ptr.op_deref
    rw [hg p]
    show ((p.bind ObjectsPtr c).deref >>= _) = _
    unfold index_ptr.bind
    rw [iterator.deref_begin_add (ObjectsPtr c) p.m_index hp]
    exact ht

theorem C2_implicit_eq_explicit_witness :
    accumulate_deref DataHeader.m_data (bound_header.initial.ctor small_data) (uint_add 32)
      [⟨3⟩, ⟨0⟩, ⟨3⟩] 0
      = accumulate_direct DataHeader.m_data small_data (uint_add 32) [3, 0, 3] 0 ∧
    accumulate_direct DataHeader.m_data small_data (uint_add 32) [3, 0, 3] 0 = .ok 90 :=
  ⟨((C2_implicit_eq_explicit DataHeader.m_data (bound_header.initial.ctor small_data)
      small_data rfl).2.1 (uint_add 32) [⟨3⟩, ⟨0⟩, ⟨3⟩] 0).1.trans
    ((C2_implicit_eq_explicit DataHeader.m_data (bound_header.initial.ctor small_data)
      small_data rfl).2.1 (uint_add 32) [⟨3⟩, ⟨0⟩, ⟨3⟩] 0).2, by rfl⟩

/-- C3: in a registry state with no header bound (`s_current` null), every
implicit resolution throws NotBound, for every index, size, position and
offset: `index_ptr::get`, `operator*`, `operator[]`, and `index_span::data`,
`begin`, `end`, `operator[]`, `span` and `subspan`. -/
theorem C3_unbound_fails {Header T : Type} (w : Nat) (ObjectsPtr : Header → range_type T)
    (s : bound_header Header) (hnone : s.s_current = none)
    (p : index_ptr) (sp : index_span) (pos offset : Nat) :
    p.get ObjectsPtr s = .error .NotBound ∧
    p.op_deref ObjectsPtr s = .error .NotBound ∧
    p.op_index ObjectsPtr s pos = .error .NotBound ∧
    sp.data ObjectsPtr s = .error .NotBound ∧
    sp.begin ObjectsPtr s = .error .NotBound ∧
    sp.end_ ObjectsPtr s = .error .NotBound ∧
    sp.op_index ObjectsPtr s pos = .error .NotBound ∧
    sp.span ObjectsPtr s = .error .NotBound ∧
    sp.subspan w ObjectsPtr s offset = .error .NotBound ∧
    sp.iterate ObjectsPtr s = .error .NotBound := by
  have hg : ∀ q : index_ptr, q.get ObjectsPtr s = .error .NotBound := by
    intro q
    unfold index_ptr.get bound_header.get
    rw [hnone]
    rfl
  refine ⟨hg p, ?_, ?_, hg _, hg _, ?_, ?_, ?_, ?_, ?_⟩
  · unfold index_ptr.op_deref; rw [hg]; rfl
  · unfold index_ptr.op_index; rw [hg]; rfl
  · unfold index_span.end_; rw [hg]; rfl
  · unfold index_span.op_index index_span.begin; rw [hg]; rfl
  · unfold index_span.span; rw [hg]; rfl
  · unfold index_span.subspan; rw [hg]; rfl
  · unfold index_span.iterate index_span.begin; rw [hg]; rfl

theorem C3_unbound_fails_witness :
    index_ptr.default.op_deref StringHeader.base bound_header.initial = .error .NotBound :=
  (C3_unbound_fails 32 StringHeader.base bound_header.initial rfl index_ptr.default
    index_span.default 0 0).2.1

/-- C4: from the initial registry, after binding `h1, ..., hn` in that order
and then running the destructor `k` times (`k ≤ n`), `get()` returns
`h(n-k)` (the list entry at position `n - 1 - k`) when `k < n` and throws
NotBound when `k = n`.  In particular binding A then B makes `get()` return
B, and one destructor later it returns A again. -/
theorem C4_nested_binding {Header : Type} (hs : List Header) (k : Nat)
    (hk : k ≤ hs.length) :
    (∃ s, (bound_header.initial.ctor_all hs).dtor_n k = .ok s ∧
      (∀ hlt : k < hs.length, s.get = .ok hs[hs.length - 1 - k]) ∧
      (k = hs.length → s.get = .error .NotBound)) ∧
    (∀ A B : Header,
      ((bound_header.initial.ctor A).ctor B).get = .ok B ∧
      (((bound_header.initial.ctor A).ctor B).dtor >>= bound_header.get) = .ok A) := by
  constructor
  · refine ⟨bound_header.registered (hs.take (hs.length - k)), ?_, ?_, ?_⟩
    · rw [bound_header.initial_eq_registered, bound_header.ctor_all_registered]
      simpa using bound_header.dtor_n_registered k hs hk
    · intro hlt
      rw [bound_header.get_registered]
      have e : (hs.take (hs.length - k)).getLast? = some hs[hs.length - 1 - k] := by
        rw [List.getLast?_eq_getElem?, List.length_take,
          List.getElem?_take_of_lt (by omega), List.getElem?_eq_getElem (by omega)]
        congr 2
        omega
      rw [e]
    · intro hkn
      rw [bound_header.get_registered]
      subst hkn
      simp
  · intro A B
    exact ⟨rfl, rfl⟩

theorem C4_nested_binding_witness :
    ((bound_header.initial.ctor_all [hello_world, ⟨⟨8192, ['a', 'b']⟩⟩]).dtor_n 1
      >>= bound_header.get) = .ok hello_world := by
  obtain ⟨⟨s, h1, h2, _⟩, _⟩ :=
    C4_nested_binding [hello_world, ⟨⟨8192, ['a', 'b']⟩⟩] 1 (by decide)
  rw [h1]
  exact h2 (by decide)

/-- C5: for every registry state `s` and header `c`, the constructor makes
`get()` return `c`, and the constructor followed by the matching destructor
gives back exactly `s` (current pointer and saved vector), so `get()`
afterwards gives what it gave before. -/
theorem C5_ctor_dtor_roundtrip {Header : Type} (s : bound_header Header) (c : Header) :
    (s.ctor c).get = .ok c ∧
    (s.ctor c).dtor = .ok s ∧
    ((s.ctor c).dtor >>= bound_header.get) = s.get := by
  have h : (s.ctor c).dtor = .ok s := by
    simp [bound_header.ctor, bound_header.dtor, List.dropLast_concat]
  refine ⟨rfl, h, ?_⟩
  rw [h]
  rfl

/-- C6: for a header `c` that is the currently bound one, with addressed
field `F`, and an index_span `(i, n)` with `i + n ≤ length F`, iterating from
`begin()` to `end()` yields exactly the `n` elements
`F[i], F[i+1], ..., F[i+n-1]` in that order. -/
theorem C6_span_iterates {Header T : Type} (ObjectsPtr : Header → range_type T)
    (s : bound_header Header) (c : Header) (i n : Nat) (hcur : s.s_current = some c)
    (h : i + n ≤ (ObjectsPtr c).elems.length) :
    ∃ out, (index_span.construct i n).iterate ObjectsPtr s = .ok out ∧
      out.length = n ∧
      ∀ k (hk : k < n), out[k]? = some ((ObjectsPtr c).elems[i + k]) := by
  refine ⟨_, index_span.iterate_of_current ObjectsPtr s c i n hcur h, ?_, ?_⟩
  · simp
    omega
  · intro k hk
    rw [List.getElem?_take_of_lt hk, List.getElem?_drop,
      List.getElem?_eq_getElem (by omega)]

theorem C6_span_iterates_witness :
    ∃ out, (index_span.construct 6 5).iterate StringHeader.base
        (bound_header.initial.ctor hello_world) = .ok out ∧
      out.length = 5 ∧ out[0]? = some 'w' ∧ out[1]? = some 'o' ∧ out[2]? = some 'r' ∧
      out[3]? = some 'l' ∧ out[4]? = some 'd' := by
  obtain ⟨out, h1, h2, h3⟩ := C6_span_iterates StringHeader.base
    (bound_header.initial.ctor hello_world) hello_world 6 5 rfl (by decide)
  exact ⟨out, h1, h2, h3 0 (by decide), h3 1 (by decide), h3 2 (by decide),
    h3 3 (by decide), h3 4 (by decide)⟩

/-- C7 (as stated, refuted): with an 8-bit index type and a field of 300
elements `0, ..., 299`, the span that `from_pointer(begin, end, header)` builds
for the sub-range `[&F[256], &F[258])` is `(0, 2)`; resolved against the same
header it yields `0, 1`, while the sub-range holds `256, 257`. -/
theorem C7_from_pointer_range_counterexample :
    index_span.from_pointer_range 8 DataHeader.m_data wide_data
        (wide_data.m_data.begin.add 256) (wide_data.m_data.begin.add 258)
      = index_span.construct 0 2 ∧
    (index_span.from_pointer_range 8 DataHeader.m_data wide_data
        (wide_data.m_data.begin.add 256) (wide_data.m_data.begin.add 258)).iterate
        DataHeader.m_data (bound_header.initial.ctor wide_data) = .ok [0, 1] ∧
    (wide_data.m_data.begin.add 256).read_range (wide_data.m_data.begin.add 258)
      = .ok [256, 257] ∧
    (index_span.from_pointer_range 8 DataHeader.m_data wide_data
        (wide_data.m_data.begin.add 256) (wide_data.m_data.begin.add 258)).iterate
        DataHeader.m_data (bound_header.initial.ctor wide_data)
      ≠ (wide_data.m_data.begin.add 256).read_range (wide_data.m_data.begin.add 258) := by
  have h1 : (index_span.from_pointer_range 8 DataHeader.m_data wide_data
        (wide_data.m_data.begin.add 256) (wide_data.m_data.begin.add 258)).iterate
        DataHeader.m_data (bound_header.initial.ctor wide_data) = .ok [0, 1] := by rfl
  have h2 : (wide_data.m_data.begin.add 256).read_range (wide_data.m_data.begin.add 258)
      = .ok [256, 257] := by rfl
  refine ⟨by rfl, h1, h2, ?_⟩
  rw [h1, h2]
  intro h
  cases h

/-- C7 (amended): for a header `c` that is the currently bound one, with
addressed field `F`, and a sub-range `[&F[p], &F[p+n])` of that field whose
start position `p` and element count `n` are representable in the `w`-bit
index type, the span built by `from_pointer(begin, end, c)`, iterated against
the same header, reproduces exactly the elements of `[begin, end)`, in order,
namely `F[p], ..., F[p+n-1]`. -/
theorem C7_from_pointer_range_roundtrip {Header T : Type} (w : Nat)
    (ObjectsPtr : Header → range_type T) (s : bound_header Header) (c : Header)
    (p n : Nat) (hcur : s.s_current = some c) (hp : p < 2 ^ w) (hn : n < 2 ^ w)
    (h : p + n ≤ (ObjectsPtr c).elems.length) :
    (index_span.from_pointer_range w ObjectsPtr c ((ObjectsPtr c).begin.add p)
        ((ObjectsPtr c).begin.add (p + n : Nat))).iterate ObjectsPtr s
      = ((ObjectsPtr c).begin.add p).read_range ((ObjectsPtr c).begin.add (p + n : Nat)) ∧
    ((ObjectsPtr c).begin.add p).read_range ((ObjectsPtr c).begin.add (p + n : Nat))
      = .ok (((ObjectsPtr c).elems.drop p).take n) := by
  have hsp : index_span.from_pointer_range w ObjectsPtr c ((ObjectsPtr c).begin.add p)
      ((ObjectsPtr c).begin.add (p + n : Nat)) = index_span.construct p n := by
    unfold index_span.from_pointer_range index_span.from_pointer
    dsimp only
    rw [iterator.sub_add_add, iterator.sub_begin_add]
    have e : ((p + n : Nat) : Int) - (p : Int) = (n : Int) := by push_cast; ring
    rw [e, to_index_type_of_lt w n hn, to_index_type_of_lt w p hp]
  have hread : ((ObjectsPtr c).begin.add p).read_range
      ((ObjectsPtr c).begin.add (p + n : Nat))
      = .ok (((ObjectsPtr c).elems.drop p).take n) := by
    have e : (ObjectsPtr c).begin.add ((p + n : Nat) : Int)
        = ((ObjectsPtr c).begin.add p).add n := by
      rw [iterator.add_add]
      push_cast
      rfl
    rw [e, iterator.read_range_add]
    exact iterator.read_n_begin_add (ObjectsPtr c) n p h
  rw [hsp, hread]
  exact ⟨index_span.iterate_of_current ObjectsPtr s c p n hcur h, rfl⟩

theorem C7_from_pointer_range_roundtrip_witness :
    (index_span.from_pointer_range 32 StringHeader.base hello_world
        (hello_world.base.begin.add (6 : Nat))
        (hello_world.base.begin.add (6 + 5 : Nat))).iterate StringHeader.base
        (bound_header.initial.ctor hello_world)
      = .ok ['w', 'o', 'r', 'l', 'd'] :=
  ((C7_from_pointer_range_roundtrip 32 StringHeader.base
      (bound_header.initial.ctor hello_world) hello_world 6 5 rfl (by decide) (by decide)
      (by decide)).1).trans
    (C7_from_pointer_range_roundtrip 32 StringHeader.base
      (bound_header.initial.ctor hello_world) hello_world 6 5 rfl (by decide) (by decide)
      (by decide)).2

/-- C8: for a header `c` with addressed field `F`, a position `p` and a count
`n` with `p + n ≤ length F`, both representable in the `w`-bit index type,
each position-based constructor applied to the sub-range of `F` that starts
at `p` and has `n` elements yields the span `(p, n)`:
`from_pointer(&F[p], n)`, `from_pointer(&F[p], &F[p+n])`,
`from_iterator(begin(F)+p, n)`, `from_iterator(begin(F)+p, begin(F)+p+n)` and
`from_range(sub-range)`; both with `c` passed as the header and with the
header defaulted to the currently bound one, when that is `c`. -/
theorem C8_position_constructors {Header T : Type} (w : Nat)
    (ObjectsPtr : Header → range_type T) (c : Header) (p n : Nat)
    (hp : p < 2 ^ w) (hn : n < 2 ^ w) (_hsub : p + n ≤ (ObjectsPtr c).elems.length) :
    (index_span.from_pointer w ObjectsPtr c ((ObjectsPtr c).begin.add p) n
        = index_span.construct p n ∧
      index_span.from_pointer_range w ObjectsPtr c ((ObjectsPtr c).begin.add p)
        ((ObjectsPtr c).begin.add (p + n : Nat)) = index_span.construct p n ∧
      index_span.from_iterator w ObjectsPtr c ((ObjectsPtr c).begin.add p) n
        = index_span.construct p n ∧
      index_span.from_iterator_range w ObjectsPtr c ((ObjectsPtr c).begin.add p)
        ((ObjectsPtr c).begin.add (p + n : Nat)) = index_span.construct p n ∧
      index_span.from_range w ObjectsPtr c ⟨(ObjectsPtr c).begin.add p, n⟩
        = index_span.construct p n) ∧
    (∀ s : bound_header Header, s.s_current = some c →
      index_span.with_bound_header s (fun header =>
        index_span.from_pointer w ObjectsPtr header ((ObjectsPtr c).begin.add p) n)
        = .ok (index_span.construct p n) ∧
      index_span.with_bound_header s (fun header =>
        index_span.from_pointer_range w ObjectsPtr header ((ObjectsPtr c).begin.add p)
          ((ObjectsPtr c).begin.add (p + n : Nat))) = .ok (index_span.construct p n) ∧
      index_span.with_bound_header s (fun header =>
        index_span.from_iterator w ObjectsPtr header ((ObjectsPtr c).begin.add p) n)
        = .ok (index_span.construct p n) ∧
      index_span.with_bound_header s (fun header =>
        index_span.from_iterator_range w ObjectsPtr header ((ObjectsPtr c).begin.add p)
          ((ObjectsPtr c).begin.add (p + n : Nat))) = .ok (index_span.construct p n) ∧
      index_span.with_bound_header s (fun header =>
        index_span.from_range w ObjectsPtr header ⟨(ObjectsPtr c).begin.add p, n⟩)
        = .ok (index_span.construct p n)) := by
  have e : ((p + n : Nat) : Int) - (p : Int) = (n : Int) := by push_cast; ring
  have h1 : index_span.from_pointer w ObjectsPtr c ((ObjectsPtr c).begin.add p) n
      = index_span.construct p n := by
    unfold index_span.from_pointer
    dsimp only
    rw [iterator.sub_begin_add, to_index_type_of_lt w p hp]
  have h2 : index_span.from_pointer_range w ObjectsPtr c ((ObjectsPtr c).begin.add p)
      ((ObjectsPtr c).begin.add (p + n : Nat)) = index_span.construct p n := by
    unfold index_span.from_pointer_range
    rw [iterator.sub_add_add, e, to_index_type_of_lt w n hn]
    exact h1
  have h3 : index_span.from_iterator w ObjectsPtr c ((ObjectsPtr c).begin.add p) n
      = index_span.construct p n := by
    unfold index_span.from_iterator
    dsimp only
    rw [iterator.sub_begin_add, to_index_type_of_lt w p hp]
  have h4 : index_span.from_iterator_range w ObjectsPtr c ((ObjectsPtr c).begin.add p)
      ((ObjectsPtr c).begin.add (p + n : Nat)) = index_span.construct p n := by
    unfold index_span.from_iterator_range
    rw [iterator.sub_add_add, e, to_index_type_of_lt w n hn]
    exact h3
  have h5 : index_span.from_range w ObjectsPtr c ⟨(ObjectsPtr c).begin.add p, n⟩
      = index_span.construct p n := by
    unfold index_span.from_range
    dsimp only
    rw [to_index_type_of_lt w n hn]
    exact h1
  refine ⟨⟨h1, h2, h3, h4, h5⟩, ?_⟩
  intro s hcur
  have hb : ∀ f : Header → index_span,
      index_span.with_bound_header s f = .ok (f c) := by
    intro f
    unfold index_span.with_bound_header
    rw [bound_header.get_ok_of_current s c hcur]
    rfl
  simp only [hb, h1, h2, h3, h4, h5, and_self]

theorem C8_position_constructors_witness :
    index_span.from_pointer 32 StringHeader.base hello_world
        (hello_world.base.begin.add (6 : Nat)) 5 = index_span.construct 6 5 ∧
    index_span.from_range 32 StringHeader.base hello_world
        ⟨hello_world.base.begin.add (6 : Nat), 5⟩ = index_span.construct 6 5 :=
  ⟨(C8_position_constructors 32 StringHeader.base hello_world 6 5 (by decide) (by decide)
      (by decide)).1.1,
    (C8_position_constructors 32 StringHeader.base hello_world 6 5 (by decide) (by decide)
      (by decide)).1.2.2.2.2⟩

/-- C9 (as stated, refuted): with an 8-bit index type the difference of the
pointers built from 1 and 43 is `-42`: both operands are promoted to `int`
before the built-in `-`.  The claim gives `(1 - 43) mod 2^8 = 214`. -/
theorem C9_difference_counterexample :
    index_ptr.difference 8 (index_ptr.construct 1) (index_ptr.construct 43) = -42 ∧
    ((1 : Int) - 43) % 2 ^ 8 = 214 ∧
    index_ptr.difference 8 (index_ptr.construct 1) (index_ptr.construct 43)
      ≠ ((1 : Int) - 43) % 2 ^ 8 := by
  refine ⟨by rfl, by rfl, ?_⟩
  have h1 : index_ptr.difference 8 (index_ptr.construct 1) (index_ptr.construct 43) = -42 := by
    rfl
  have h2 : ((1 : Int) - 43) % 2 ^ 8 = 214 := by rfl
  rw [h1, h2]
  decide

/-- C9 (amended): an index_ptr behaves as its underlying `w`-bit unsigned
integer: for all `i`, `k`, `a`, `b` of that width, constructing with `i` and
converting back gives `i`; assigning `k` gives `k`; adding `k` in place gives
`(i + k) mod 2^w`; the difference of the pointers built from `a` and `b` is
`(a - b) mod 2^w` when the index type is at least as wide as `int` (as the
default `uint32_t` is), and the signed integer `a - b` when it is narrower;
two pointers compare equal exactly when their integers are equal.  None of
these functions takes the registry state: constructing with 1 then adding 41
gives 42 with nothing bound. -/
theorem C9_integer_transparency (w i k a b : Nat) (_hi : i < 2 ^ w) (_hk : k < 2 ^ w)
    (_ha : a < 2 ^ w) (_hb : b < 2 ^ w) :
    (index_ptr.construct i).to_index = i ∧
    ((index_ptr.construct i).assign k).to_index = k ∧
    ((index_ptr.construct i).add_assign w k).to_index = (i + k) % 2 ^ w ∧
    (int_width ≤ w →
      index_ptr.difference w (index_ptr.construct a) (index_ptr.construct b)
        = ((a : Int) - (b : Int)) % 2 ^ w ∧
      0 ≤ index_ptr.difference w (index_ptr.construct a) (index_ptr.construct b) ∧
      index_ptr.difference w (index_ptr.construct a) (index_ptr.construct b) < 2 ^ w) ∧
    (w < int_width →
      index_ptr.difference w (index_ptr.construct a) (index_ptr.construct b)
        = (a : Int) - (b : Int)) ∧
    (index_ptr.eq (index_ptr.construct a) (index_ptr.construct b) = true ↔ a = b) ∧
    (index_ptr.construct a = index_ptr.construct b ↔ a = b) ∧
    ((index_ptr.construct i).add_assign w k).to_index < 2 ^ w ∧
    ((index_ptr.construct 1).add_assign 32 41).to_index = 42 := by
  have hpos : (0 : Int) < 2 ^ w := by positivity
  have hcast : ∀ z : Int, ((to_index_type w z : Nat) : Int) = z % 2 ^ w := by
    intro z
    unfold to_index_type
    exact Int.toNat_of_nonneg (Int.emod_nonneg z (ne_of_gt hpos))
  have hlt : ∀ z : Int, to_index_type w z < 2 ^ w := by
    intro z
    have h1 := hcast z
    have h2 : z % 2 ^ w < 2 ^ w := Int.emod_lt_of_pos z hpos
    have h3 : ((to_index_type w z : Nat) : Int) < ((2 ^ w : Nat) : Int) := by
      rw [h1]; push_cast; exact h2
    exact_mod_cast h3
  refine ⟨rfl, rfl, ?_, ?_, ?_, ?_, ?_, hlt ((i : Int) + (k : Int)), by rfl⟩
  · show to_index_type w ((i : Int) + (k : Int)) = (i + k) % 2 ^ w
    have h1 := hcast ((i : Int) + (k : Int))
    have h2 : (((i + k) % 2 ^ w : Nat) : Int) = ((i : Int) + (k : Int)) % 2 ^ w := by
      push_cast; rfl
    exact_mod_cast h1.trans h2.symm
  · intro hw
    have hd : index_ptr.difference w (index_ptr.construct a) (index_ptr.construct b)
        = ((a : Int) - (b : Int)) % 2 ^ w := by
      unfold index_ptr.difference
      rw [if_neg (by omega)]
      exact hcast _
    rw [hd]
    exact ⟨rfl, Int.emod_nonneg _ (ne_of_gt hpos), Int.emod_lt_of_pos _ hpos⟩
  · intro hw
    unfold index_ptr.difference
    rw [if_pos hw]
    rfl
  · simp [index_ptr.eq, index_ptr.construct, index_ptr.to_index]
  · simp [index_ptr.construct]

theorem C9_integer_transparency_witness :
    index_ptr.difference 32 (index_ptr.construct 43) (index_ptr.construct 1)
      = ((43 : Int) - 1) % 2 ^ 32 ∧
    index_ptr.difference 8 (index_ptr.construct 1) (index_ptr.construct 43)
      = (1 : Int) - 43 :=
  ⟨((C9_integer_transparency 32 1 41 43 1 (by decide) (by decide) (by decide)
      (by decide)).2.2.2.1 (by decide)).1,
    (C9_integer_transparency 8 1 41 1 43 (by decide) (by decide) (by decide)
      (by decide)).2.2.2.2.1 (by decide)⟩

/-- C10: a default-constructed index_ptr has index 0, a default-constructed
index_span has index 0 and size 0, and a span constructed from `(i, n)`
reports index `i` and size `n` unchanged, for every `i` and `n` (nothing is
validated). -/
theorem C10_construction (i n : Nat) :
    index_ptr.default.to_index = 0 ∧
    index_span.default.index = 0 ∧
    index_span.default.size = 0 ∧
    (index_span.construct i n).index = i ∧
    (index_span.construct i n).size = n :=
  ⟨rfl, rfl, rfl, rfl, rfl⟩

/-- C11: the element read through `bind(header)` depends only on the
pointer's index and on the contents of the addressed field of the supplied
header: it is `F[i]` when `i` is inside the field, it is never NotBound, in
a registry state with nothing bound the implicit `operator*` throws while
`bind(header)` still resolves, and for any other header (of any type, at
any address) whose addressed field has equal contents the same pointer reads
an equal element. -/
theorem C11_bind_depends_on_field_only {Header T : Type} (ObjectsPtr : Header → range_type T)
    (c : Header) (p : index_ptr) :
    (p.bind ObjectsPtr c).deref ≠ .error .NotBound ∧
    (∀ hi : p.m_index < (ObjectsPtr c).elems.length,
      (p.bind ObjectsPtr c).deref = .ok ((ObjectsPtr c).elems[p.m_index])) ∧
    (∀ s : bound_header Header, s.s_current = none →
      p.op_deref ObjectsPtr s = .error .NotBound ∧
      ∀ hi : p.m_index < (ObjectsPtr c).elems.length,
        (p.bind ObjectsPtr c).deref = .ok ((ObjectsPtr c).elems[p.m_index])) ∧
    (∀ (Header2 : Type) (ObjectsPtr2 : Header2 → range_type T) (c2 : Header2),
      (ObjectsPtr2 c2).elems = (ObjectsPtr c).elems →
      (p.bind ObjectsPtr2 c2).deref = (p.bind ObjectsPtr c).deref) := by
  have hin : ∀ hi : p.m_index < (ObjectsPtr c).elems.length,
      (p.bind ObjectsPtr c).deref = .ok ((ObjectsPtr c).elems[p.m_index]) :=
    fun hi => iterator.deref_begin_add (ObjectsPtr c) p.m_index hi
  refine ⟨?_, hin, ?_, ?_⟩
  · unfold index_ptr.bind
    rw [iterator.deref_begin_add_eq]
    cases (ObjectsPtr c).elems[p.m_index]? <;> simp
  · intro s hnone
    refine ⟨?_, hin⟩
    unfold index_ptr.op_deref index_ptr.get bound_header.get
    rw [hnone]
    rfl
  · intro Header2 ObjectsPtr2 c2 heq
    unfold index_ptr.bind
    rw [iterator.deref_begin_add_eq, iterator.deref_begin_add_eq, heq]

theorem C11_bind_depends_on_field_only_witness :
    (index_ptr.construct 6).op_deref StringHeader.base bound_header.initial
      = .error .NotBound ∧
    ((index_ptr.construct 6).bind StringHeader.base hello_world).deref = .ok 'w' ∧
    ((index_ptr.construct 6).bind StringHeader.base
        (⟨⟨70000, hello_world.base.elems⟩⟩ : StringHeader)).deref
      = ((index_ptr.construct 6).bind StringHeader.base hello_world).deref :=
  ⟨((C11_bind_depends_on_field_only StringHeader.base hello_world
      (index_ptr.construct 6)).2.2.1 bound_header.initial rfl).1,
    (C11_bind_depends_on_field_only StringHeader.base hello_world
      (index_ptr.construct 6)).2.1 (by decide),
    (C11_bind_depends_on_field_only StringHeader.base hello_world
      (index_ptr.construct 6)).2.2.2 StringHeader StringHeader.base
      ⟨⟨70000, hello_world.base.elems⟩⟩ rfl⟩

/-- C13: for an index_span `(i, n)` with `n` a value of the `w`-bit index
type, an offset `o ≤ n` and a header `c` that is the currently bound one,
with `i + n ≤ length F`, `subspan(o)` is the view of size `n - o` that starts
at `begin(F) + i + o`; its elements are exactly
`F[i+o], ..., F[i+n-1]` in order (none when `o = n`). -/
theorem C13_subspan {Header T : Type} (w : Nat) (ObjectsPtr : Header → range_type T)
    (s : bound_header Header) (c : Header) (i n o : Nat) (hcur : s.s_current = some c)
    (hn : n < 2 ^ w) (ho : o ≤ n) (h : i + n ≤ (ObjectsPtr c).elems.length) :
    ∃ v out, (index_span.construct i n).subspan w ObjectsPtr s o = .ok v ∧
      v.data = (ObjectsPtr c).begin.add (i + o : Nat) ∧
      v.size = n - o ∧
      v.elements = .ok out ∧
      out.length = n - o ∧
      ∀ k (hk : k < n - o), out[k]? = some ((ObjectsPtr c).elems[i + o + k]) := by
  have hget := index_ptr.get_eq_bind_of_current ObjectsPtr s c (index_ptr.construct i) hcur
  have hsize : index_span.sub_size w n o = n - o := index_span.sub_size_of_le w n o hn ho
  have hdata : ((ObjectsPtr c).begin.add (i : Nat)).add (o : Nat)
      = (ObjectsPtr c).begin.add ((i + o : Nat) : Int) := by
    rw [iterator.add_add]
    push_cast
    rfl
  refine ⟨⟨(ObjectsPtr c).begin.add (i + o : Nat), n - o⟩,
    ((ObjectsPtr c).elems.drop (i + o)).take (n - o), ?_, rfl, rfl, ?_, ?_, ?_⟩
  · unfold index_span.subspan index_span.construct
    simp only [hget]
    show Except.ok (std_span.mk ((((ObjectsPtr c).begin.add ((index_ptr.construct i).m_index
      : Nat)).add (o : Nat))) (index_span.sub_size w n o)) = _
    rw [hsize]
    show Except.ok (std_span.mk ((((ObjectsPtr c).begin.add (i : Nat)).add (o : Nat)))
      (n - o)) = _
    rw [hdata]
  · exact iterator.read_n_begin_add (ObjectsPtr c) (n - o) (i + o) (by omega)
  · simp
    omega
  · intro k hk
    rw [List.getElem?_take_of_lt hk, List.getElem?_drop,
      List.getElem?_eq_getElem (by omega)]

theorem C13_subspan_witness :
    ∃ v out, (index_span.construct 0 11).subspan 32 StringHeader.base
        (bound_header.initial.ctor hello_world) 6 = .ok v ∧
      v.size = 5 ∧ v.elements = .ok out ∧ out.length = 5 ∧
      out[0]? = some 'w' ∧ out[4]? = some 'd' := by
  obtain ⟨v, out, h1, _, h3, h4, h5, h6⟩ := C13_subspan 32 StringHeader.base
    (bound_header.initial.ctor hello_world) hello_world 0 11 6 rfl (by decide) (by decide)
    (by decide)
  exact ⟨v, out, h1, h3, h4, h5, h6 0 (by decide), h6 4 (by decide)⟩

/-- C14 (the code at the failing input): for the const spans `(2, 1)` and
`(3, 1)` over "hello world", the comparison `a == b` is the element-wise one
of the member template: it is true with the header bound (both spans read
`l`) although the indices differ, and it throws NotBound with nothing bound
even for a span compared with itself; the non-const member
`operator==(const index_span&)` returns false on the same two spans. -/
theorem C14_const_spans_compare_elements :
    (index_span.construct 2 1).eq_const StringHeader.base
        (bound_header.initial.ctor hello_world) (index_span.construct 3 1) = .ok true ∧
    (index_span.construct 2 1).index ≠ (index_span.construct 3 1).index ∧
    (index_span.construct 2 1).eq (index_span.construct 3 1) = false ∧
    (index_span.construct 2 1).eq_const StringHeader.base bound_header.initial
        (index_span.construct 2 1) = .error .NotBound ∧
    (index_span.construct 2 1).eq (index_span.construct 2 1) = true := by
  refine ⟨by rfl, by decide, by rfl, by rfl, by rfl⟩

/-- C15: for an index_span `(i, n)`, a header `c` that is the currently bound
one, with `i + n ≤ length F`, and every range `r`, the comparison of the span
with `r` returns a value, and it is true exactly when `r` has `n` elements
and `r[k] = F[i + k]` for every `k < n`. -/
theorem C15_span_eq_range {Header T : Type} [DecidableEq T]
    (ObjectsPtr : Header → range_type T) (s : bound_header Header) (c : Header)
    (i n : Nat) (r : List T) (hcur : s.s_current = some c)
    (h : i + n ≤ (ObjectsPtr c).elems.length) :
    ∃ b, (index_span.construct i n).eq_range ObjectsPtr s r = .ok b ∧
      (b = true ↔
        r.length = n ∧ ∀ k (hk : k < n), r[k]? = some ((ObjectsPtr c).elems[i + k])) := by
  have hget := index_ptr.get_eq_bind_of_current ObjectsPtr s c (index_ptr.construct i) hcur
  have hsub : (((ObjectsPtr c).begin.add (i : Nat)).add (n : Nat)).sub
      ((ObjectsPtr c).begin.add (i : Nat)) = (n : Int) := by
    simp [iterator.sub, iterator.add]
  have hrun : (index_span.construct i n).eq_range ObjectsPtr s r
      = if (n : Int) ≠ (r.length : Int) then .ok false
        else ((ObjectsPtr c).begin.add (i : Nat)).equal_from r := by
    unfold index_span.eq_range index_span.begin index_span.end_ index_span.construct
    simp only [hget]
    show (if (((ObjectsPtr c).begin.add (i : Nat)).add (n : Nat)).sub
        ((ObjectsPtr c).begin.add (i : Nat)) ≠ (r.length : Int) then pure false
      else ((ObjectsPtr c).begin.add (i : Nat)).equal_from r) = _
    rw [hsub]
    rfl
  by_cases hnr : n = r.length
  · subst hnr
    refine ⟨decide (r = ((ObjectsPtr c).elems.drop i).take r.length), ?_, ?_⟩
    · rw [hrun, if_neg (by simp)]
      exact iterator.equal_from_begin_add (ObjectsPtr c) r i h
    · rw [decide_eq_true_iff]
      exact list_eq_slice_iff (ObjectsPtr c).elems r i r.length h
  · refine ⟨false, ?_, ?_⟩
    · rw [hrun, if_pos (by exact_mod_cast hnr)]
    · constructor
      · intro hf
        cases hf
      · rintro ⟨hl, _⟩
        exact absurd hl.symm hnr

theorem C15_span_eq_range_witness :
    (∃ b, (index_span.construct 0 5).eq_range StringHeader.base
        (bound_header.initial.ctor hello_world) ['h', 'e', 'l', 'l', 'o'] = .ok b ∧
      b = true) ∧
    (∃ b, (index_span.construct 6 5).eq_range StringHeader.base
        (bound_header.initial.ctor hello_world) ['w', 'o', 'r', 'l', 'd'] = .ok b ∧
      b = true) := by
  constructor
  · obtain ⟨b, h1, h2⟩ := C15_span_eq_range StringHeader.base
      (bound_header.initial.ctor hello_world) hello_world 0 5 ['h', 'e', 'l', 'l', 'o'] rfl
      (by decide)
    exact ⟨b, h1, h2.2 (by decide)⟩
  · obtain ⟨b, h1, h2⟩ := C15_span_eq_range StringHeader.base
      (bound_header.initial.ctor hello_world) hello_world 6 5 ['w', 'o', 'r', 'l', 'd'] rfl
      (by decide)
    exact ⟨b, h1, h2.2 (by decide)⟩

/-- C16: for a header `c` that is the currently bound one, whose field has 12
elements where element `k` holds a pointer with index `(k + 7) mod 12`,
starting from any element `start` and running `key = *key.next` `t` times
lands on element `(start + 7t) mod 12`, for every `t`; the chain is back at
the start element exactly at the multiples of 12 (so after 12 steps and at
no step 1..11), the 12 elements reached in steps 0..11 are pairwise
different, and every element of the field is reached within them. -/
theorem C16_cyclic_traversal {Header T : Type} (ObjectsPtr : Header → range_type T)
    (next : T → index_ptr) (s : bound_header Header) (c : Header)
    (hcur : s.s_current = some c) (hlen : (ObjectsPtr c).elems.length = 12)
    (hnext : ∀ k (hk : k < 12),
      next ((ObjectsPtr c).elems[k]) = index_ptr.construct ((k + 7) % 12))
    (start : Nat) (hs : start < 12) :
    (∀ t, follow ObjectsPtr next s t ((ObjectsPtr c).elems[start])
      = .ok ((ObjectsPtr c).elems[(start + 7 * t) % 12])) ∧
    (∀ t, follow ObjectsPtr next s t ((ObjectsPtr c).elems[start])
      = .ok ((ObjectsPtr c).elems[start]) ↔ t % 12 = 0) ∧
    (∀ t1 t2, t1 < 12 → t2 < 12 →
      follow ObjectsPtr next s t1 ((ObjectsPtr c).elems[start])
        = follow ObjectsPtr next s t2 ((ObjectsPtr c).elems[start]) → t1 = t2) ∧
    (∀ k (hk : k < 12), ∃ t, t < 12 ∧
      follow ObjectsPtr next s t ((ObjectsPtr c).elems[start])
        = .ok ((ObjectsPtr c).elems[k])) := by
  have hf := fun t => follow_of_current ObjectsPtr next s c hcur hlen hnext t start hs
  have hinj : ∀ a b (ha : a < 12) (hb : b < 12),
      (ObjectsPtr c).elems[a] = (ObjectsPtr c).elems[b] → a = b := by
    intro a b ha hb hab
    have h1 := hnext a ha
    have h2 := hnext b hb
    rw [hab, h2] at h1
    have h3 : (b + 7) % 12 = (a + 7) % 12 := by
      simpa [index_ptr.construct] using h1
    omega
  refine ⟨hf, ?_, ?_, ?_⟩
  · intro t
    rw [hf t]
    constructor
    · intro h
      have h1 := hinj _ _ (by omega) hs (Except.ok.inj h)
      omega
    · intro h
      have e : (start + 7 * t) % 12 = start := by omega
      simp only [e]
  · intro t1 t2 h1 h2 h
    rw [hf t1, hf t2] at h
    have h3 := hinj _ _ (by omega) (by omega) (Except.ok.inj h)
    omega
  · intro k hk
    refine ⟨(7 * (k + 12 - start)) % 12, by omega, ?_⟩
    rw [hf]
    have e : (start + 7 * ((7 * (k + 12 - start)) % 12)) % 12 = k := by omega
    simp only [e]

theorem C16_cyclic_traversal_witness :
    follow CircleOfFifths.keys Key.next (bound_header.initial.ctor circle_of_fifths) 12
        (circle_of_fifths.keys.elems[5])
      = .ok (circle_of_fifths.keys.elems[5]) ∧
    follow CircleOfFifths.keys Key.next (bound_header.initial.ctor circle_of_fifths) 3
        (circle_of_fifths.keys.elems[5])
      = .ok (circle_of_fifths.keys.elems[2]) ∧
    follow_reads CircleOfFifths.keys Key.next (bound_header.initial.ctor circle_of_fifths) 12
        (circle_of_fifths.keys.elems[5])
      = .ok [0, 7, 2, 9, 4, 11, 6, 1, 8, 3, 10, 5] :=
  ⟨((C16_cyclic_traversal CircleOfFifths.keys Key.next
      (bound_header.initial.ctor circle_of_fifths) circle_of_fifths rfl rfl (by decide) 5
      (by decide)).2.1 12).mpr (by decide),
    (C16_cyclic_traversal CircleOfFifths.keys Key.next
      (bound_header.initial.ctor circle_of_fifths) circle_of_fifths rfl rfl (by decide) 5
      (by decide)).1 3, by rfl⟩

/-- C17: for a header `c` that is the currently bound one, with two fields
`A` (selected by `foos`) and `B` (selected by `bars`), where the elements of
`A` hold a pointer into `B` and the elements of `B` a pointer into `A`, each
pointer resolves against its own field: following the pointer of `A[i]`
gives `B[A[i].bar]`, and following the pointer of that element gives
`A[B[A[i].bar].foo]`. -/
theorem C17_mutual_reference {Header TA TB : Type} (foos : Header → range_type TA)
    (bars : Header → range_type TB) (bar : TA → index_ptr) (foo : TB → index_ptr)
    (s : bound_header Header) (c : Header) (hcur : s.s_current = some c) (i : Nat)
    (hi : i < (foos c).elems.length)
    (hj : (bar ((foos c).elems[i])).m_index < (bars c).elems.length)
    (hk : (foo ((bars c).elems[(bar ((foos c).elems[i])).m_index])).m_index
      < (foos c).elems.length) :
    (bar ((foos c).elems[i])).arrow_member bars s id
      = .ok ((bars c).elems[(bar ((foos c).elems[i])).m_index]) ∧
    (foo ((bars c).elems[(bar ((foos c).elems[i])).m_index])).arrow_member foos s id
      = .ok ((foos c).elems[(foo ((bars c).elems[(bar ((foos c).elems[i])).m_index])).m_index])
    ∧
    ((bar ((foos c).elems[i])).arrow_member bars s foo
      >>= fun q => q.arrow_member foos s id)
      = .ok ((foos c).elems[(foo ((bars c).elems[(bar ((foos c).elems[i])).m_index])).m_index])
    := by
  have h1 := index_ptr.arrow_member_of_current bars s c (bar ((foos c).elems[i])) id hcur hj
  have h2 := index_ptr.arrow_member_of_current foos s c
    (foo ((bars c).elems[(bar ((foos c).elems[i])).m_index])) id hcur hk
  have h3 := index_ptr.arrow_member_of_current bars s c (bar ((foos c).elems[i])) foo hcur hj
  refine ⟨h1, h2, ?_⟩
  rw [h3]
  exact h2

theorem C17_mutual_reference_witness :
    ((chain_header.foos.elems[0]).bar.arrow_member ChainHeader.bars
        (bound_header.initial.ctor chain_header) id
      = .ok (chain_header.bars.elems[0])) ∧
    (chain_header.foos.elems[0]).data = "foo0" ∧
    (chain_header.foos.elems[0]).bar.arrow_member ChainHeader.bars
        (bound_header.initial.ctor chain_header) Bar.data = .ok "bar0" ∧
    ((chain_header.foos.elems[0]).bar.arrow_member ChainHeader.bars
        (bound_header.initial.ctor chain_header) Bar.foo
      >>= fun q => q.arrow_member ChainHeader.foos
        (bound_header.initial.ctor chain_header) Foo.data) = .ok "foo1" ∧
    ((chain_header.foos.elems[0]).bar.arrow_member ChainHeader.bars
        (bound_header.initial.ctor chain_header) Bar.foo
      >>= fun q => q.arrow_member ChainHeader.foos
        (bound_header.initial.ctor chain_header) Foo.bar
      >>= fun q => q.arrow_member ChainHeader.bars
        (bound_header.initial.ctor chain_header) Bar.data) = .ok "bar1" ∧
    ((chain_header.foos.elems[0]).bar.arrow_member ChainHeader.bars
        (bound_header.initial.ctor chain_header) Bar.foo
      >>= fun q => q.arrow_member ChainHeader.foos
        (bound_header.initial.ctor chain_header) Foo.bar
      >>= fun q => q.arrow_member ChainHeader.bars
        (bound_header.initial.ctor chain_header) Bar.foo
      >>= fun q => q.arrow_member ChainHeader.foos
        (bound_header.initial.ctor chain_header) Foo.data) = .ok "foo0" :=
  ⟨(C17_mutual_reference ChainHeader.foos ChainHeader.bars Foo.bar Bar.foo
      (bound_header.initial.ctor chain_header) chain_header rfl 0 (by decide) (by decide)
      (by decide)).1, by rfl, by rfl, by rfl, by rfl, by rfl⟩

/-- C18 (as stated, refuted): in a header whose element 0 stores a pointer
with index 0, writing the key `{1}` through that pointer replaces element 0,
and with it the pointer itself: its stored index is 1 afterwards, not 0. -/
theorem C18_stored_index_counterexample :
    stored_pointer CircleOfFifths.keys Key.next 0 self_keys = some ⟨0⟩ ∧
    index_ptr.bind_store_member CircleOfFifths.keys CircleOfFifths.put_keys Key.next 0
        self_keys ⟨⟨1⟩⟩ = .ok ⟨⟨0, [⟨⟨1⟩⟩, ⟨⟨1⟩⟩]⟩⟩ ∧
    stored_pointer CircleOfFifths.keys Key.next 0
        (⟨⟨0, [⟨⟨1⟩⟩, ⟨⟨1⟩⟩]⟩⟩ : CircleOfFifths) = some ⟨1⟩ ∧
    stored_pointer CircleOfFifths.keys Key.next 0
        (⟨⟨0, [⟨⟨1⟩⟩, ⟨⟨1⟩⟩]⟩⟩ : CircleOfFifths)
      ≠ stored_pointer CircleOfFifths.keys Key.next 0 self_keys := by
  refine ⟨by rfl, by rfl, by rfl, by decide⟩

/-- C18 (amended): for a header `c` whose addressed field `F` is mutable
(`put` stores the field, `ObjectsPtr` reads it back), a pointer with index
`i < length F` and a value `v`, the statement `*p.bind(c) = v` yields a header
whose field has `v` at position `i`, is unchanged at every other position,
and has the same length and address.  The pointer's stored index is
unchanged when the pointer is stored outside element `i`: in a variable of
its own, or in another element of the field.  A pointer stored in element
`i` is replaced by the one `v` holds, also when it is the pointer written
through. -/
theorem C18_write_through_bind {Header T : Type} (ObjectsPtr : Header → range_type T)
    (put : Header → range_type T → Header) (c : Header) (p : index_ptr) (v : T)
    (hput : ∀ header r, ObjectsPtr (put header r) = r)
    (hi : p.m_index < (ObjectsPtr c).elems.length) :
    ∃ c2, p.bind_store ObjectsPtr put c v = .ok c2 ∧
      (ObjectsPtr c2).elems.length = (ObjectsPtr c).elems.length ∧
      (ObjectsPtr c2).data = (ObjectsPtr c).data ∧
      (ObjectsPtr c2).elems[p.m_index]? = some v ∧
      (∀ j, j ≠ p.m_index → (ObjectsPtr c2).elems[j]? = (ObjectsPtr c).elems[j]?) ∧
      (ObjectsPtr c2).elems = (ObjectsPtr c).elems.set p.m_index v ∧
      p.bind_store_var ObjectsPtr put c v = .ok (c2, p) ∧
      (∀ (next : T → index_ptr) (j : Nat), j ≠ p.m_index →
        stored_pointer ObjectsPtr next j c2 = stored_pointer ObjectsPtr next j c) ∧
      (∀ next : T → index_ptr,
        stored_pointer ObjectsPtr next p.m_index c2 = some (next v)) ∧
      (∀ (next : T → index_ptr) (j : Nat),
        stored_pointer ObjectsPtr next j c = some p →
        index_ptr.bind_store_member ObjectsPtr put next j c v = .ok c2) := by
  have hstore : (p.bind ObjectsPtr c).store v
      = .ok ⟨(ObjectsPtr c).data, (ObjectsPtr c).elems.set p.m_index v⟩ := by
    simp [iterator.store, index_ptr.bind, iterator.add, range_type.begin, hi]
  have hrun : p.bind_store ObjectsPtr put c v
      = .ok (put c ⟨(ObjectsPtr c).data, (ObjectsPtr c).elems.set p.m_index v⟩) := by
    unfold index_ptr.bind_store
    rw [hstore]
    rfl
  have hother : ∀ j, j ≠ p.m_index →
      (ObjectsPtr (put c ⟨(ObjectsPtr c).data, (ObjectsPtr c).elems.set p.m_index v⟩)).elems[j]?
        = (ObjectsPtr c).elems[j]? := by
    intro j hj
    rw [hput]
    simp [List.getElem?_set, Ne.symm hj]
  have hself :
      (ObjectsPtr (put c ⟨(ObjectsPtr c).data, (ObjectsPtr c).elems.set p.m_index v⟩)).elems[p.m_index]?
        = some v := by
    rw [hput]
    simp [hi]
  refine ⟨put c ⟨(ObjectsPtr c).data, (ObjectsPtr c).elems.set p.m_index v⟩, hrun, ?_, ?_,
    hself, hother, ?_, ?_, ?_, ?_, ?_⟩
  · rw [hput]
    simp
  · rw [hput]
  · rw [hput]
  · unfold index_ptr.bind_store_var
    rw [hrun]
    rfl
  · intro next j hj
    unfold stored_pointer
    rw [hother j hj]
  · intro next
    unfold stored_pointer
    rw [hself]
    rfl
  · intro next j hstored
    unfold stored_pointer at hstored
    unfold index_ptr.bind_store_member
    cases helem : (ObjectsPtr c).elems[j]? with
    | none =>
      rw [helem] at hstored
      simp at hstored
    | some elem =>
      rw [helem] at hstored
      have hp : next elem = p := by simpa using hstored
      show (next elem).bind_store ObjectsPtr put c v = _
      rw [hp]
      exact hrun

theorem C18_write_through_bind_witness :
    (∃ c2, (index_ptr.construct 1).bind_store_var StringHeader.base StringHeader.put_base
        hello_world 'z' = .ok (c2, index_ptr.construct 1) ∧ c2.base.elems[1]? = some 'z') ∧
    (index_ptr.default.bind_store_var StringHeader.base StringHeader.put_base hello_world 'x'
      >>= fun st => (st.2.assign 1).bind_store_var StringHeader.base
        StringHeader.put_base st.1 'z')
      = .ok (⟨⟨4096, ['x', 'z', 'l', 'l', 'o', ' ', 'w', 'o', 'r', 'l', 'd']⟩⟩,
          index_ptr.construct 1) := by
  constructor
  · obtain ⟨c2, _, _, _, h4, _, _, h7, _⟩ := C18_write_through_bind StringHeader.base
      StringHeader.put_base hello_world (index_ptr.construct 1) 'z' (fun _ _ => rfl)
      (by decide)
    exact ⟨c2, h7, h4⟩
  · rfl

/-- C19: `from_pointer` and `from_iterator` validate nothing: for every
pointer or iterator, at any signed element distance `d = addr - base` from
the start of the field (negative or beyond the end included), and every
size `n`, they return the span whose index is `d mod 2^w` and whose size is
`n`; the two-ended forms store `(end - begin) mod 2^w` as the size.  With
the header defaulted to the bound one, the same span is returned whenever
a header is bound. -/
theorem C19_constructors_unvalidated {Header T : Type} (w : Nat)
    (ObjectsPtr : Header → range_type T) (c : Header) (first last : iterator T) (n : Nat) :
    (((index_span.from_pointer w ObjectsPtr c first n).index : Int)
        = (first.addr - (ObjectsPtr c).data) % 2 ^ w ∧
      (index_span.from_pointer w ObjectsPtr c first n).size = n) ∧
    (((index_span.from_iterator w ObjectsPtr c first n).index : Int)
        = (first.addr - (ObjectsPtr c).data) % 2 ^ w ∧
      (index_span.from_iterator w ObjectsPtr c first n).size = n) ∧
    (((index_span.from_pointer_range w ObjectsPtr c first last).index : Int)
        = (first.addr - (ObjectsPtr c).data) % 2 ^ w ∧
      ((index_span.from_pointer_range w ObjectsPtr c first last).size : Int)
        = (last.addr - first.addr) % 2 ^ w) ∧
    (((index_span.from_iterator_range w ObjectsPtr c first last).index : Int)
        = (first.addr - (ObjectsPtr c).data) % 2 ^ w ∧
      ((index_span.from_iterator_range w ObjectsPtr c first last).size : Int)
        = (last.addr - first.addr) % 2 ^ w) ∧
    (∀ (s : bound_header Header) (f : Header → index_span), s.s_current = some c →
      index_span.with_bound_header s f = .ok (f c)) := by
  have hpos : (0 : Int) < 2 ^ w := by positivity
  have hcast : ∀ z : Int, ((to_index_type w z : Nat) : Int) = z % 2 ^ w := by
    intro z
    unfold to_index_type
    exact Int.toNat_of_nonneg (Int.emod_nonneg z (ne_of_gt hpos))
  refine ⟨⟨hcast _, rfl⟩, ⟨hcast _, rfl⟩, ⟨hcast _, hcast _⟩, ⟨hcast _, hcast _⟩, ?_⟩
  intro s f hcur
  unfold index_span.with_bound_header
  rw [bound_header.get_ok_of_current s c hcur]
  rfl

theorem C19_constructors_unvalidated_witness :
    index_span.from_pointer 32 StringHeader.base hello_world
        (hello_world.base.begin.add (-1)) 7 = index_span.construct 4294967295 7 ∧
    index_span.with_bound_header (bound_header.initial.ctor hello_world)
        (fun header => index_span.from_pointer 32 StringHeader.base header
          (hello_world.base.begin.add (-1)) 7)
      = .ok (index_span.from_pointer 32 StringHeader.base hello_world
          (hello_world.base.begin.add (-1)) 7) :=
  ⟨by rfl, (C19_constructors_unvalidated 32 StringHeader.base hello_world
    (hello_world.base.begin.add (-1)) (hello_world.base.begin.add 20) 7).2.2.2.2
    (bound_header.initial.ctor hello_world)
    (fun header => index_span.from_pointer 32 StringHeader.base header
      (hello_world.base.begin.add (-1)) 7) rfl⟩

/-- C20: registry invariant.  For every sequence of register / release steps
from the initial registry in which a release is only taken while a
registration is live, with `m` registrations live at the end: the run
succeeds; the saved vector has exactly `m` entries; when `m > 0` its bottom
entry is the null pointer; every other entry is a header some step
registered; before every release step the saved vector is not empty (so the
destructor never reads or pops an empty vector); and `get()` throws NotBound
exactly when `m = 0`. -/
theorem C20_registry_invariant {Header : Type} (steps : List (registry_step Header))
    (m : Nat) (hvalid : live_count 0 steps = some m) :
    (∃ s, run_steps bound_header.initial steps = .ok s ∧
      s.s_headers.length = m ∧
      (0 < m → s.s_headers.head? = some none) ∧
      (∀ e ∈ s.s_headers.tail, ∃ h, e = some h ∧ registry_step.register h ∈ steps) ∧
      (s.get = .error .NotBound ↔ m = 0)) ∧
    (∀ pre rest, steps = pre ++ registry_step.release :: rest →
      ∃ s1, run_steps bound_header.initial pre = .ok s1 ∧ s1.s_headers ≠ []) := by
  constructor
  · obtain ⟨hs2, h1, h2, h3⟩ := run_steps_registered steps [] m hvalid
    refine ⟨bound_header.registered hs2, h1, ?_, ?_, ?_, ?_⟩
    · rw [bound_header.registered_headers_length, h2]
    · intro hm
      rcases List.eq_nil_or_concat hs2 with e | ⟨l, a, e⟩
      · subst e
        simp at h2
        omega
      · rw [List.concat_eq_append] at e
        subst e
        rw [bound_header.registered_concat]
        rfl
    · intro e he
      rcases List.eq_nil_or_concat hs2 with e2 | ⟨l, a, e2⟩
      · subst e2
        simp [bound_header.registered] at he
      · rw [List.concat_eq_append] at e2
        subst e2
        rw [bound_header.registered_concat] at he
        simp only [List.tail_cons, List.mem_map] at he
        obtain ⟨h, hin, rfl⟩ := he
        refine ⟨h, rfl, ?_⟩
        rcases h3 h (List.mem_append_left _ hin) with hnil | hreg
        · simp at hnil
        · exact hreg
    · rw [bound_header.get_registered]
      rcases List.eq_nil_or_concat hs2 with e | ⟨l, a, e⟩
      · subst e
        simp at h2
        simp [h2]
      · rw [List.concat_eq_append] at e
        subst e
        have hm : m ≠ 0 := by
          simp at h2
          omega
        simp [hm]
  · intro pre rest e
    subst e
    rw [live_count_append] at hvalid
    cases hpre : live_count 0 pre with
    | none => simp [hpre] at hvalid
    | some b =>
      rw [hpre] at hvalid
      have hb : b ≠ 0 := by
        intro hb0
        subst hb0
        simp [live_count] at hvalid
      obtain ⟨hs2, h1, h2, _⟩ := run_steps_registered pre [] b hpre
      refine ⟨bound_header.registered hs2, h1, ?_⟩
      intro hnil
      have hlen := bound_header.registered_headers_length hs2
      rw [hnil] at hlen
      simp at hlen
      omega

theorem C20_registry_invariant_witness :
    ∃ s, run_steps bound_header.initial
        [registry_step.register hello_world, registry_step.register hello_world,
          registry_step.release] = .ok s ∧
      s.s_headers.length = 1 :=
  (C20_registry_invariant
    [registry_step.register hello_world, registry_step.register hello_world,
      registry_step.release] 1 rfl).1.imp (fun _ h => ⟨h.1, h.2.1⟩)

/-- C21: the destructor does not identify the object it runs on: it gives
the same result for every object, namely it makes the last saved entry
current and removes it.  Hence, from the initial registry, after binding A
and then B, destroying the object of A (while that of B is live) makes
`get()` return A, not B; destroying the object of B afterwards makes `get()`
throw NotBound and leaves the initial state; and binding any `n` headers and
then destroying `n` objects, in any order of the objects, gives back the
initial state. -/
theorem C21_release_ignores_handle {Header : Type} :
    (∀ (s : bound_header Header) (obj1 obj2 : bound_header_object),
      s.dtor_object obj1 = s.dtor_object obj2) ∧
    (∀ (s : bound_header Header) (saved : List (Option Header)) (top : Option Header)
      (obj : bound_header_object), s.s_headers = saved ++ [top] →
      s.dtor_object obj = .ok ⟨top, saved⟩) ∧
    (∀ A B : Header, ∃ s1,
      ((bound_header.initial.ctor A).ctor B).dtor_object ⟨0⟩ = .ok s1 ∧
      s1.get = .ok A ∧ (A ≠ B → s1.get ≠ .ok B) ∧
      ∃ s2, s1.dtor_object ⟨1⟩ = .ok s2 ∧ s2.get = .error .NotBound ∧
        s2 = bound_header.initial) ∧
    (∀ (hs : List Header) (order : List bound_header_object), order.length = hs.length →
      (bound_header.initial.ctor_all hs).dtor_objects order = .ok bound_header.initial) := by
  refine ⟨fun _ _ _ => rfl, ?_, ?_, ?_⟩
  · intro s saved top obj hsaved
    unfold bound_header.dtor_object
    rw [hsaved]
    simp [List.dropLast_concat]
  · intro A B
    refine ⟨⟨some A, [none]⟩, rfl, rfl, ?_, ⟨none, []⟩, rfl, rfl, rfl⟩
    intro hne h
    have h2 : A = B := by
      simpa [bound_header.get] using h
    exact hne h2
  · intro hs order hlen
    rw [bound_header.dtor_objects_eq_dtor_n, hlen, bound_header.initial_eq_registered,
      bound_header.ctor_all_registered, List.nil_append,
      bound_header.dtor_n_registered hs.length hs (le_refl _)]
    simp

theorem C21_release_ignores_handle_witness :
    (bound_header.initial.ctor_all [hello_world, ⟨⟨8192, ['a', 'b']⟩⟩]).dtor_objects
        [⟨0⟩, ⟨1⟩] = .ok bound_header.initial ∧
    ((bound_header.initial.ctor hello_world).ctor ⟨⟨8192, ['a', 'b']⟩⟩).dtor_object ⟨0⟩
      = .ok ⟨some hello_world, [none]⟩ :=
  ⟨C21_release_ignores_handle.2.2.2 [hello_world, ⟨⟨8192, ['a', 'b']⟩⟩] [⟨0⟩, ⟨1⟩] rfl,
    C21_release_ignores_handle.2.1 _ [none] (some hello_world) ⟨0⟩ rfl⟩

/-- C22: `subspan` does not check its offset: for a span `(i, n)` of the
32-bit index type, a header `c` that is the currently bound one (with a field
of any length) and an offset `o > n` of the index type, `subspan(o)` returns
a view, which starts at `begin(F) + i + o` and whose size is `(n - o)` reduced
modulo `2^32`, that is `2^32 - (o - n)`, larger than `n`. -/
theorem C22_subspan_unchecked {Header T : Type} (ObjectsPtr : Header → range_type T)
    (s : bound_header Header) (c : Header) (i n o : Nat) (hcur : s.s_current = some c)
    (hn : n < o) (ho : o < 2 ^ 32) :
    ∃ v, (index_span.construct i n).subspan 32 ObjectsPtr s o = .ok v ∧
      v.data = (ObjectsPtr c).begin.add (i + o : Nat) ∧
      (v.size : Int) = ((n : Int) - (o : Int)) % 2 ^ 32 ∧
      v.size = 2 ^ 32 - (o - n) ∧
      n < v.size := by
  have hget := index_ptr.get_eq_bind_of_current ObjectsPtr s c (index_ptr.construct i) hcur
  have hsize : index_span.sub_size 32 n o = 2 ^ 32 - (o - n) :=
    (index_span.sub_size_default n o).trans (to_index_type_sub_of_lt n o hn ho)
  have hdata : ((ObjectsPtr c).begin.add (i : Nat)).add (o : Nat)
      = (ObjectsPtr c).begin.add ((i + o : Nat) : Int) := by
    rw [iterator.add_add]
    push_cast
    rfl
  refine ⟨⟨(ObjectsPtr c).begin.add (i + o : Nat), 2 ^ 32 - (o - n)⟩, ?_, rfl, ?_, rfl, ?_⟩
  · unfold index_span.subspan index_span.construct
    simp only [hget]
    show Except.ok (std_span.mk ((((ObjectsPtr c).begin.add (i : Nat)).add (o : Nat)))
      (index_span.sub_size 32 n o)) = _
    rw [hsize, hdata]
  · show ((2 ^ 32 - (o - n) : Nat) : Int) = ((n : Int) - (o : Int)) % 2 ^ 32
    have e : ((n : Int) - (o : Int)) % 2 ^ 32 = (n : Int) - (o : Int) + 2 ^ 32 := by
      rw [← Int.add_emod_self]
      exact Int.emod_eq_of_lt (by omega) (by omega)
    rw [e]
    omega
  · show n < 2 ^ 32 - (o - n)
    omega

theorem C22_subspan_unchecked_witness :
    ∃ v, (index_span.construct 6 5).subspan 32 StringHeader.base
        (bound_header.initial.ctor hello_world) 7 = .ok v ∧
      v.size = 4294967294 := by
  obtain ⟨v, h1, _, _, h4, _⟩ := C22_subspan_unchecked StringHeader.base
    (bound_header.initial.ctor hello_world) hello_world 6 5 7 rfl (by decide) (by decide)
  exact ⟨v, h1, h4⟩

end nodecode
